import Mathlib

/-!
Verification of the gpx-viewer segment-matching engine.

This file gives a shallow embedding, over `ℚ`, of the segment-matching core:
the spatial grid index (`src/utils/spatialIndex.ts`), the polyline reducer and
the segment matcher (`src/utils/segmentMatcher.ts`, duplicated in
`src/workers/segmentMatcher.worker.ts`).

JavaScript numbers are IEEE doubles; every finite double is a rational number,
so plain arithmetic (`+ - * /`, comparisons, `Math.floor`, `Math.ceil`,
`Math.min/max/abs`) is modelled exactly on `ℚ`.  The three transcendental
primitives — `haversineDistance`, `calculateBearing` and `Math.sqrt` — cannot
be evaluated exactly; they are abstracted as parameters (the `GeoPrims`
structure below), and the theorems quantify over them (adding the properties
the real functions enjoy, such as non-negativity of a distance, as explicit
hypotheses where they are needed).  Concrete computable instantiations are
used for witnesses and counterexamples.
-/

set_option maxHeartbeats 1000000
set_option maxRecDepth 100000

/- Rational arithmetic and `mergeSort` are sealed (`irreducible`) in this
toolchain; reopen them so that concrete runs of the engine can be evaluated
by `decide`. -/
unseal Rat.mul Rat.add Rat.inv Rat.sub Rat.ofScientific List.merge List.mergeSort

namespace GpxViewer

/-- A `{lat, lng}` coordinate pair.  `ElevationPoint` in the source carries
additional fields (`distance`, `elevation`, `heartRate`, `cadence`) that the
matching engine never reads; they are omitted. -/
structure Point where
  lat : ℚ
  lng : ℚ
deriving DecidableEq

instance : Inhabited Point := ⟨⟨0, 0⟩⟩

/-- The three floating-point transcendental primitives of the engine,
abstracted: `hav` models `haversineDistance(lat1, lon1, lat2, lon2)`,
`bear` models `calculateBearing(lat1, lon1, lat2, lon2)`, and `sqrt` models
`Math.sqrt`. -/
structure GeoPrims where
  hav : ℚ → ℚ → ℚ → ℚ → ℚ
  bear : ℚ → ℚ → ℚ → ℚ → ℚ
  sqrt : ℚ → ℚ

/-- `GpxTrack` restricted to the fields the matcher reads: `id`, `name`,
`elevation` (the point list) and `visible`.  Strings are `List Char`. -/
structure GpxTrack where
  id : List Char
  name : List Char
  elevation : List Point
  visible : Bool
deriving DecidableEq

/-- The internal `MatchingPoint` pairing of the matcher. -/
structure MatchingPoint where
  pointA : Point
  pointB : Point
  indexA : ℕ
  indexB : ℕ
deriving DecidableEq

instance : Inhabited MatchingPoint := ⟨⟨default, default, 0, 0⟩⟩

/-- `MatchedSegment` as produced by `createSegment`. -/
structure MatchedSegment where
  id : List Char
  trackAId : List Char
  trackBId : List Char
  trackAName : List Char
  trackBName : List Char
  points : List Point
  distance : ℚ
  direction : ℚ
  directionLabel : List Char
  startIndexA : ℕ
  endIndexA : ℕ
  startIndexB : ℕ
  endIndexB : ℕ
deriving DecidableEq

instance : Inhabited MatchedSegment :=
  ⟨⟨[], [], [], [], [], [], 0, 0, [], 0, 0, 0, 0⟩⟩

/-- The `MatchingAlgorithm` union type. -/
inductive MatchingAlgorithm where
  | standard
  | adaptive
  | bidirectional
deriving DecidableEq

/-! ### Configuration constants (`segmentMatcher.ts` lines 5-16) -/

def MIN_SEGMENT_POINTS : ℕ := 8
def MIN_SEGMENT_DISTANCE_KM : ℚ := 2 / 25
def POINT_SAMPLE_RATE : ℕ := 3
def MAX_INDEX_GAP : ℕ := 30
def MERGE_GAP_KM : ℚ := 1 / 4
def OVERLAP_THRESHOLD : ℚ := 1 / 5
def ADAPTIVE_MIN_RATE : ℕ := 1
def ADAPTIVE_MAX_RATE : ℕ := 5
def ADAPTIVE_TARGET_POINTS : ℕ := 500

/-- `getAdaptiveSampleRate`: `Math.ceil(trackLength / 500)` clamped to `[1,5]`;
tracks of at most 500 points are sampled at rate 1. -/
def getAdaptiveSampleRate (trackLength : ℕ) : ℕ :=
  if trackLength ≤ ADAPTIVE_TARGET_POINTS then ADAPTIVE_MIN_RATE
  else min ((trackLength + (ADAPTIVE_TARGET_POINTS - 1)) / ADAPTIVE_TARGET_POINTS)
    ADAPTIVE_MAX_RATE

/-- `bearingsAreSimilar(bearing1, bearing2, tolerance = 45)`:
fold `|b1 - b2|` through 360° wraparound and compare with the tolerance. -/
def bearingsAreSimilar (bearing1 bearing2 : ℚ) (tolerance : ℚ := 45) : Bool :=
  let diff := |bearing1 - bearing2|
  let diff2 := if 180 < diff then 360 - diff else diff
  decide (diff2 ≤ tolerance)

/-- The compass rose `['N', 'NE', 'E', 'SE', 'S', 'SW', 'W', 'NW']`. -/
def compassDirections : List (List Char) :=
  [['N'], ['N', 'E'], ['E'], ['S', 'E'], ['S'], ['S', 'W'], ['W'], ['N', 'W']]

/-- `bearingToDirection`: `directions[Math.round(bearing / 45) % 8]`.
`Math.round x = Math.floor (x + 1/2)` and JavaScript `%` truncates toward
zero (`Int.tmod`).  For a negative index JavaScript reads `undefined`; that
cannot happen for the bearings in `[0, 360)` the callers produce, and the
model then falls back to the list default. -/
def bearingToDirection (bearing : ℚ) : List Char :=
  compassDirections.getD (Int.tmod ⌊bearing / 45 + 1 / 2⌋ 8).toNat ['N']

/-- `calculateSegmentDirection`: bearing from first to last point, plus its
compass label; `(0, 'N')` below 2 points. -/
def calculateSegmentDirection (g : GeoPrims) (points : List Point) : ℚ × List Char :=
  if points.length < 2 then (0, ['N'])
  else
    let s := points.headD default
    let e := points.getLastD default
    let bearing := g.bear s.lat s.lng e.lat e.lng
    (bearing, bearingToDirection bearing)

/-! ### Spatial grid index (`src/utils/spatialIndex.ts`)

The grid is a JavaScript `Map` from string keys `"cellX,cellY"` to arrays of
`{point, index}` entries, filled by `buildIndex` in track order.  Distinct
`(cellX, cellY)` integer pairs produce distinct key strings, so the key is
modelled as `ℤ × ℤ`; the bucket of a key holds exactly the entries whose
point falls in that cell, in insertion (index) order. -/

/-- The cell key of a coordinate: `(Math.floor(lng / cellSize), Math.floor(lat / cellSize))`. -/
def cellKey (cellSize lat lng : ℚ) : ℤ × ℤ :=
  (⌊lng / cellSize⌋, ⌊lat / cellSize⌋)

/-- The content of the bucket `grid.get("cellX,cellY")` after `buildIndex`:
all `(index, point)` entries of the track whose cell is `key`, in index
order. -/
def gridBucket (points : List Point) (cellSize : ℚ) (key : ℤ × ℤ) : List (ℕ × Point) :=
  points.enum.filter (fun e => cellKey cellSize e.2.lat e.2.lng = key)

/-- All integers from `a` to `b` inclusive (empty when `b < a`). -/
def intRange (a b : ℤ) : List ℤ :=
  (List.range (b + 1 - a).toNat).map (fun k : ℕ => a + (k : ℤ))

/-- The `(dx, dy)` offsets visited by the query's two nested loops, in loop
order (`dx` outer, `dy` inner, each from `-searchRadius` to `searchRadius`). -/
def searchOffsets (searchRadius : ℤ) : List (ℤ × ℤ) :=
  (intRange (-searchRadius) searchRadius).flatMap
    (fun dx => (intRange (-searchRadius) searchRadius).map (fun dy => (dx, dy)))

/-- One step of the query's running minimum: starting from
`nearestDist = Infinity`, an entry replaces the current best iff
`dist < nearestDist && dist <= maxDistanceKm`. -/
def nearestStep (hav : ℚ → ℚ → ℚ → ℚ → ℚ) (lat lng maxDistanceKm : ℚ)
    (best : Option (ℕ × ℚ)) (e : ℕ × Point) : Option (ℕ × ℚ) :=
  let dist := hav lat lng e.2.lat e.2.lng
  match best with
  | none => if dist ≤ maxDistanceKm then some (e.1, dist) else none
  | some b => if dist < b.2 ∧ dist ≤ maxDistanceKm then some (e.1, dist) else some b

/-- The running-minimum scan over a list of `(index, point)` entries. -/
def nearestFold (hav : ℚ → ℚ → ℚ → ℚ → ℚ) (lat lng maxDistanceKm : ℚ)
    (entries : List (ℕ × Point)) : Option (ℕ × ℚ) :=
  entries.foldl (nearestStep hav lat lng maxDistanceKm) none

/-- `SpatialGrid.findNearestWithinDistance(lat, lng, maxDistanceKm, haversineDistance)`
for the grid built from `points` with cell size `cellSizeKm`:
scan every bucket within `searchRadius` cells (Chebyshev) of the query's
cell, keeping the strict running minimum among distances `≤ maxDistanceKm`. -/
def findNearestWithinDistance (hav : ℚ → ℚ → ℚ → ℚ → ℚ) (points : List Point)
    (cellSizeKm lat lng maxDistanceKm : ℚ) : Option (ℕ × ℚ) :=
  let cellSize := cellSizeKm / 111
  let searchRadius : ℤ := ⌈maxDistanceKm / 111 / cellSize⌉
  let center := cellKey cellSize lat lng
  nearestFold hav lat lng maxDistanceKm
    ((searchOffsets searchRadius).flatMap
      (fun o => gridBucket points cellSize (center.1 + o.1, center.2 + o.2)))

/-- Modelled from the spec: the "exhaustive O(N) linear scan over all points
that keeps the minimum haversine distance ≤ maxDistanceKm" against which the
grid query is compared (§8 "Grid correctness").  It runs the same running
minimum over every point of the track in index order. -/
def linearScanNearest (hav : ℚ → ℚ → ℚ → ℚ → ℚ) (points : List Point)
    (lat lng maxDistanceKm : ℚ) : Option (ℕ × ℚ) :=
  nearestFold hav lat lng maxDistanceKm points.enum

/-- The search radius in cells used by the query:
`Math.ceil(maxDistanceKm / 111 / cellSize)` with `cellSize = cellSizeKm / 111`. -/
def gridSearchRadius (cellSizeKm maxDistanceKm : ℚ) : ℤ :=
  ⌈maxDistanceKm / 111 / (cellSizeKm / 111)⌉

/-- The coverage condition for a query: a point lies in a cell within
`searchRadius` (Chebyshev distance) of the query's cell, so the scan visits
its bucket. -/
def cellCovered (cellSizeKm lat lng maxDistanceKm : ℚ) (p : Point) : Prop :=
  let cellSize := cellSizeKm / 111
  let r := gridSearchRadius cellSizeKm maxDistanceKm
  let c := cellKey cellSize lat lng
  let k := cellKey cellSize p.lat p.lng
  let dxOk := -r ≤ k.1 - c.1 ∧ k.1 - c.1 ≤ r
  let dyOk := -r ≤ k.2 - c.2 ∧ k.2 - c.2 ≤ r
  dxOk ∧ dyOk

instance (cellSizeKm lat lng maxDistanceKm : ℚ) (p : Point) :
    Decidable (cellCovered cellSizeKm lat lng maxDistanceKm p) := by
  unfold cellCovered; infer_instance

/-- `findNearestPointWithinDelta`: query track B's grid, built with cell size
`Math.max(deltaKm * 2, 0.5)`.  (`getSpatialGrid` caches grids per track id and
rebuilds when the point count changes; within a single matching run the cache
returns a grid built from these very points, so it is modelled as a fresh
build.) -/
def findNearestPointWithinDelta (g : GeoPrims) (trackBPoints : List Point)
    (deltaKm : ℚ) (point : Point) : Option (ℕ × ℚ) :=
  findNearestWithinDistance g.hav trackBPoints (max (deltaKm * 2) (1 / 2))
    point.lat point.lng deltaKm

/-! ### Polyline reducer: smoothing -/

/-- The moving-average body of `smoothPolyline` at output index `i`: average
of the points in the clamped window `[i - halfWindow, i + halfWindow]`.
A window that clamps to nothing gives `0/0`, which is `NaN` in JavaScript and
`0` in `ℚ`; this happens only for `windowSize < 0`, which no caller uses. -/
def smoothAvgAt (points : List Point) (halfWindow : ℤ) (i : ℕ) : Point :=
  let idxs := intRange (max 0 ((i : ℤ) - halfWindow))
    (min ((points.length : ℤ) - 1) ((i : ℤ) + halfWindow))
  let count : ℚ := idxs.length
  let sumLat := (idxs.map (fun j => (points.getD j.toNat default).lat)).sum
  let sumLng := (idxs.map (fun j => (points.getD j.toNat default).lng)).sum
  Point.mk (sumLat / count) (sumLng / count)

/-- `smoothPolyline(points, windowSize = 3)`: centered moving average with
half-window `Math.floor(windowSize / 2)`, window clamped to the array bounds,
then the first and last output points are overwritten with the original
endpoints. -/
def smoothPolyline (points : List Point) (windowSize : ℤ := 3) : List Point :=
  if (points.length : ℤ) ≤ windowSize then points
  else
    (((List.range points.length).map (smoothAvgAt points (Int.fdiv windowSize 2))).set 0
      (points.headD default)).set (points.length - 1) (points.getLastD default)

/-! ### Polyline reducer: Douglas-Peucker simplification -/

/-- `perpendicularDistance(point, lineStart, lineEnd)`: distance from a point
to the chord, via a `[0,1]`-clamped projection; falls back to the
point-to-point haversine distance when the chord has zero length. -/
def perpendicularDistance (g : GeoPrims) (point lineStart lineEnd : Point) : ℚ :=
  let dx := lineEnd.lng - lineStart.lng
  let dy := lineEnd.lat - lineStart.lat
  let len := g.sqrt (dx * dx + dy * dy)
  if len = 0 then g.hav point.lat point.lng lineStart.lat lineStart.lng
  else
    let t := max 0 (min 1
      (((point.lng - lineStart.lng) * dx + (point.lat - lineStart.lat) * dy) / (len * len)))
    let projLng := lineStart.lng + t * dx
    let projLat := lineStart.lat + t * dy
    g.sqrt ((point.lng - projLng) * (point.lng - projLng) +
      (point.lat - projLat) * (point.lat - projLat))

/-- The distance of the `i`-th point of `l` from the chord between the first
and last point of `l`. -/
def dOf (g : GeoPrims) (l : List Point) (i : ℕ) : ℚ :=
  perpendicularDistance g (l.getD i default) (l.headD default) (l.getLastD default)

/-- The running `(maxIdx, maxDist)` of `simplifyPolyline`'s scan, after
considering indices `1 .. k` in ascending order: starts at `(0, 0)` and
updates on a strict increase, exactly as the source loop. -/
def bestAux (d : ℕ → ℚ) : ℕ → ℕ × ℚ
  | 0 => (0, 0)
  | k + 1 =>
    let p := bestAux d k
    if p.2 < d (k + 1) then (k + 1, d (k + 1)) else p

/-- `(maxIdx, maxDist)` over the interior indices `1 .. l.length - 2`. -/
def maxInterior (g : GeoPrims) (l : List Point) : ℕ × ℚ :=
  bestAux (dOf g l) (l.length - 2)

/-- `simplifyPolyline(points, tolerance)`, with explicit recursion fuel.
The source recursion can fail to terminate: when `maxDist > tolerance` but no
interior point ever exceeded the initial `maxDist = 0` (possible only for
`tolerance < 0`), `maxIdx` stays `0` and `points.slice(maxIdx)` is the whole
list again — a stack overflow in JavaScript.  Exhausted fuel (`none`) models
exactly those diverging runs: in every terminating run each recursive call is
on a strictly shorter list, so fuel `length + 1` suffices (see
`simplifyFuel_isSome_of_nonneg`). -/
def simplifyFuel (g : GeoPrims) : ℕ → List Point → ℚ → Option (List Point)
  | 0, _, _ => none
  | fuel + 1, points, tolerance =>
    if points.length ≤ 2 then some points
    else
      let mM := maxInterior g points
      if tolerance < mM.2 then
        match simplifyFuel g fuel (points.take (mM.1 + 1)) tolerance,
            simplifyFuel g fuel (points.drop mM.1) tolerance with
        | some left, some right => some (left.dropLast ++ right)
        | _, _ => none
      else
        some [points.headD default, points.getLastD default]

/-- `simplifyPolyline(points, tolerance = 0.000015)`; `none` is a diverging
(stack-overflowing) run, which cannot happen for `0 ≤ tolerance`. -/
def simplifyPolyline (g : GeoPrims) (points : List Point)
    (tolerance : ℚ := 3 / 200000) : Option (List Point) :=
  simplifyFuel g (points.length + 1) points tolerance

/-- Total wrapper for use inside the pipeline, where the tolerance is the
positive default and the run always terminates. -/
def simplifyTotal (g : GeoPrims) (points : List Point) (tolerance : ℚ) : List Point :=
  (simplifyPolyline g points tolerance).getD points

/-! ### Segment matcher: candidate matching -/

/-- The decimal digit characters of a natural number, as produced by the
JavaScript template literal `${n}`. -/
def decDigit (d : ℕ) : Char := Char.ofNat (48 + d)

/-- Decimal digits, with structural recursion fuel (so that concrete values
reduce); `fuel = n + 1` always suffices since `n / 10 < n` for `n ≥ 10`. -/
def natToDecAux : ℕ → ℕ → List Char
  | 0, _ => []
  | fuel + 1, n =>
    if n < 10 then [decDigit n]
    else natToDecAux fuel (n / 10) ++ [decDigit (n % 10)]

/-- Decimal representation of a natural number (`${n}` in JavaScript). -/
def natToDec (n : ℕ) : List Char := natToDecAux (n + 1) n

/-- The indices visited by `for (let i = 0; i < len; i += sampleRate)`:
the multiples of `sampleRate` below `len`.  (The loop would not terminate for
`sampleRate = 0`; both sample-rate computations always return at least 1.) -/
def sampleIndices (len sampleRate : ℕ) : List ℕ :=
  (List.range len).filter (fun i => i % sampleRate = 0)

/-- One iteration of the candidate-matching loop of
`findMatchesBetweenTracks`: query the grid, then (unless
`checkBearing` is off, the sampled index is 0, or the matched index is 0)
require similar step bearings; `none` models `continue`. -/
def candidateAt (g : GeoPrims) (pointsA pointsB : List Point) (deltaKm : ℚ)
    (sampleRate : ℕ) (checkBearing : Bool) (i : ℕ) : Option MatchingPoint :=
  match findNearestPointWithinDelta g pointsB deltaKm (pointsA.getD i default) with
  | none => none
  | some nearest =>
    let pointA := pointsA.getD i default
    let pointB := pointsB.getD nearest.1 default
    if checkBearing ∧ 0 < i ∧ 0 < nearest.1 then
      let prevA := pointsA.getD (i - sampleRate) default
      let prevB := pointsB.getD (nearest.1 - sampleRate) default
      let bearingA := g.bear prevA.lat prevA.lng pointA.lat pointA.lng
      let bearingB := g.bear prevB.lat prevB.lng pointB.lat pointB.lng
      if bearingsAreSimilar bearingA bearingB then
        some ⟨pointA, pointB, i, nearest.1⟩
      else none
    else some ⟨pointA, pointB, i, nearest.1⟩

/-- The accepted `MatchingPoint`s of one track pair, in sampling order. -/
def matchCandidates (g : GeoPrims) (pointsA pointsB : List Point) (deltaKm : ℚ)
    (sampleRate : ℕ) (checkBearing : Bool) : List MatchingPoint :=
  (sampleIndices pointsA.length sampleRate).filterMap
    (candidateAt g pointsA pointsB deltaKm sampleRate checkBearing)

/-! ### Segment matcher: grouping and merging -/

/-- The `isConsecutive` test of `groupIntoSegments`: both index gaps at most
`MAX_INDEX_GAP`, and (unless opposite progressions are allowed) both index
sequences progressing in the same direction. -/
def isConsecutive (allowOppositeProgression : Bool)
    (lastPoint current : MatchingPoint) : Bool :=
  let indexGapA := ((current.indexA : ℤ) - (lastPoint.indexA : ℤ)).natAbs
  let indexGapB := ((current.indexB : ℤ) - (lastPoint.indexB : ℤ)).natAbs
  let isProgressingA := decide (lastPoint.indexA < current.indexA)
  let isProgressingB := decide (lastPoint.indexB < current.indexB)
  let sameProgression := isProgressingA == isProgressingB
  let progressionOk := allowOppositeProgression || sameProgression
  decide (indexGapA ≤ MAX_INDEX_GAP) && decide (indexGapB ≤ MAX_INDEX_GAP) && progressionOk

/-- The common postlude of the three grouping loops: push the pending run if
it reached `MIN_SEGMENT_POINTS` (`if (currentSegment.length >= MIN_SEGMENT_POINTS)
segments.push(currentSegment)`). -/
def finalizeGroups (st : List (List MatchingPoint) × List MatchingPoint) :
    List (List MatchingPoint) :=
  if MIN_SEGMENT_POINTS ≤ st.2.length then st.1 ++ [st.2] else st.1

/-- One iteration of the raw-segmentation loop: state is
`(rawSegments, currentSegmentPoints)`. -/
def rawSegStep (allowOppositeProgression : Bool)
    (st : List (List MatchingPoint) × List MatchingPoint) (current : MatchingPoint) :
    List (List MatchingPoint) × List MatchingPoint :=
  match st.2 with
  | [] => (st.1, [current])
  | _ :: _ =>
    if isConsecutive allowOppositeProgression (st.2.getLastD default) current then
      (st.1, st.2 ++ [current])
    else if MIN_SEGMENT_POINTS ≤ st.2.length then
      (st.1 ++ [st.2], [current])
    else (st.1, [current])

/-- The raw segments of `groupIntoSegments`: walk the matching points,
cutting when `isConsecutive` fails and discarding runs shorter than
`MIN_SEGMENT_POINTS` (including the final run). -/
def buildRawSegments (allowOppositeProgression : Bool)
    (matchingPoints : List MatchingPoint) : List (List MatchingPoint) :=
  finalizeGroups (matchingPoints.foldl (rawSegStep allowOppositeProgression) ([], []))

/-- One iteration of `mergeNearbySegments`: concatenate when the gap from the
current run's last point to the next segment's first point (on track A) is at
most `MERGE_GAP_KM`. -/
def mergeNearbyStep (g : GeoPrims)
    (st : List (List MatchingPoint) × List MatchingPoint) (seg : List MatchingPoint) :
    List (List MatchingPoint) × List MatchingPoint :=
  if g.hav (st.2.getLastD default).pointA.lat (st.2.getLastD default).pointA.lng
      (seg.headD default).pointA.lat (seg.headD default).pointA.lng ≤ MERGE_GAP_KM then
    (st.1, st.2 ++ seg)
  else if MIN_SEGMENT_POINTS ≤ st.2.length then (st.1 ++ [st.2], seg)
  else (st.1, seg)

/-- `mergeNearbySegments`: sequential merge of segments whose
endpoint-to-next-start gap is within `MERGE_GAP_KM`. -/
def mergeNearbySegments (g : GeoPrims) (segments : List (List MatchingPoint)) :
    List (List MatchingPoint) :=
  if segments.length ≤ 1 then segments
  else
    match segments with
    | [] => []
    | s0 :: rest => finalizeGroups (rest.foldl (mergeNearbyStep g) ([], s0))

/-- `calculateSegmentBearing`: bearing from the first to the last matching
point's track-A coordinates (0 below 2 points). -/
def calculateSegmentBearing (g : GeoPrims) (segment : List MatchingPoint) : ℚ :=
  if segment.length < 2 then 0
  else
    let first := segment.headD default
    let last := segment.getLastD default
    g.bear first.pointA.lat first.pointA.lng last.pointA.lat last.pointA.lng

/-- `segmentsHaveSameDirection(seg1, seg2, tolerance = 60)`. -/
def segmentsHaveSameDirection (g : GeoPrims) (seg1 seg2 : List MatchingPoint)
    (tolerance : ℚ := 60) : Bool :=
  bearingsAreSimilar (calculateSegmentBearing g seg1) (calculateSegmentBearing g seg2)
    tolerance

/-- `Math.min(...seg.map(p => p.indexA))`.  The segments reaching this are
always non-empty; the empty case (JavaScript `Infinity`) is defaulted. -/
def minIndexA (seg : List MatchingPoint) : ℕ :=
  match seg.map (fun p => p.indexA) with
  | [] => 0
  | x :: xs => xs.foldl min x

/-- `Math.max(...seg.map(p => p.indexA))`. -/
def maxIndexA (seg : List MatchingPoint) : ℕ :=
  match seg.map (fun p => p.indexA) with
  | [] => 0
  | x :: xs => xs.foldl max x

/-- `segmentsOverlap`: index ranges on track A overlap by at least
`OVERLAP_THRESHOLD` of the shorter segment, with a same-direction gate unless
`skipDirectionCheck`. -/
def segmentsOverlap (g : GeoPrims) (seg1 seg2 : List MatchingPoint)
    (skipDirectionCheck : Bool) : Bool :=
  if !skipDirectionCheck && !segmentsHaveSameDirection g seg1 seg2 then false
  else
    let seg1StartA := minIndexA seg1
    let seg1EndA := maxIndexA seg1
    let seg2StartA := minIndexA seg2
    let seg2EndA := maxIndexA seg2
    let overlapStart := max seg1StartA seg2StartA
    let overlapEnd := min seg1EndA seg2EndA
    if overlapEnd < overlapStart then false
    else
      let overlapLength : ℚ := (overlapEnd : ℚ) - (overlapStart : ℚ)
      let seg1Length : ℚ := (seg1EndA : ℚ) - (seg1StartA : ℚ)
      let seg2Length : ℚ := (seg2EndA : ℚ) - (seg2StartA : ℚ)
      let minLength := min seg1Length seg2Length
      decide (0 < minLength) && decide (OVERLAP_THRESHOLD ≤ overlapLength / minLength)

/-- `segmentsAreSpatiallyClose`: some pair of the four endpoints (on track A)
within `2 * MERGE_GAP_KM`, with the same same-direction gate. -/
def segmentsAreSpatiallyClose (g : GeoPrims) (seg1 seg2 : List MatchingPoint)
    (skipDirectionCheck : Bool) : Bool :=
  if !skipDirectionCheck && !segmentsHaveSameDirection g seg1 seg2 then false
  else
    let seg1Start := (seg1.headD default).pointA
    let seg1End := (seg1.getLastD default).pointA
    let seg2Start := (seg2.headD default).pointA
    let seg2End := (seg2.getLastD default).pointA
    let distStartStart := g.hav seg1Start.lat seg1Start.lng seg2Start.lat seg2Start.lng
    let distEndEnd := g.hav seg1End.lat seg1End.lng seg2End.lat seg2End.lng
    let distStartEnd := g.hav seg1Start.lat seg1Start.lng seg2End.lat seg2End.lng
    let distEndStart := g.hav seg1End.lat seg1End.lng seg2Start.lat seg2Start.lng
    let minDist := min (min (min distStartStart distEndEnd) distStartEnd) distEndStart
    decide (minDist ≤ MERGE_GAP_KM * 2)

/-- `pointMap.set(p.indexA, p)` on a JavaScript `Map` modelled as an
insertion-ordered association list: overwrite in place, or append. -/
def mapInsert (m : List MatchingPoint) (p : MatchingPoint) : List MatchingPoint :=
  if m.any (fun q => q.indexA = p.indexA) then
    m.map (fun q => if q.indexA = p.indexA then p else q)
  else m ++ [p]

/-- The guarded insert used for the second segment:
`if (!pointMap.has(p.indexA)) pointMap.set(p.indexA, p)`. -/
def mapInsertIfAbsent (m : List MatchingPoint) (p : MatchingPoint) : List MatchingPoint :=
  if m.any (fun q => q.indexA = p.indexA) then m else m ++ [p]

/-- `mergeSegmentPoints`: union the two segments keyed by `indexA` (first
segment wins), then sort by `indexA`.  `Array.prototype.sort` with comparator
`(a, b) => a.indexA - b.indexA` is a stable ascending sort, modelled by
`List.mergeSort`. -/
def mergeSegmentPoints (seg1 seg2 : List MatchingPoint) : List MatchingPoint :=
  let entries := seg2.foldl mapInsertIfAbsent (seg1.foldl mapInsert [])
  entries.mergeSort (fun a b => a.indexA ≤ b.indexA)

/-- One iteration of `mergeOverlappingSegments`' accumulation loop. -/
def mergeOverlapStep (g : GeoPrims) (skipDirectionCheck : Bool)
    (st : List (List MatchingPoint) × List MatchingPoint) (next : List MatchingPoint) :
    List (List MatchingPoint) × List MatchingPoint :=
  if segmentsOverlap g st.2 next skipDirectionCheck
      || segmentsAreSpatiallyClose g st.2 next skipDirectionCheck then
    (st.1, mergeSegmentPoints st.2 next)
  else if MIN_SEGMENT_POINTS ≤ st.2.length then (st.1 ++ [st.2], next)
  else (st.1, next)

/-- `mergeOverlappingSegments`: sort segments by their start index on A
(stable, comparator `aStart - bStart`), then fold, merging overlapping or
spatially close segments into the accumulator. -/
def mergeOverlappingSegments (g : GeoPrims) (segments : List (List MatchingPoint))
    (algorithm : MatchingAlgorithm) : List (List MatchingPoint) :=
  if segments.length ≤ 1 then segments
  else
    let skipDirectionCheck := decide (algorithm = MatchingAlgorithm.bidirectional)
    match segments.mergeSort (fun a b => minIndexA a ≤ minIndexA b) with
    | [] => []
    | s0 :: rest =>
      finalizeGroups (rest.foldl (mergeOverlapStep g skipDirectionCheck) ([], s0))

/-! ### Segment matcher: materialization and the driver -/

/-- The `rawPoints` loop of `createSegment`: the full run of track-A points
between the matched range's endpoints (`for (let i = startIdxA; i <= endIdxA
&& i < trackAPoints.length; i++)`), falling back to appending the matching
points themselves when the range produced fewer than two points. -/
def createSegmentRawPoints (matchingPoints : List MatchingPoint)
    (trackA : GpxTrack) : List Point :=
  let sortedPoints := matchingPoints.mergeSort (fun a b => a.indexA ≤ b.indexA)
  let startIdxA := (sortedPoints.headD default).indexA
  let endIdxA := (sortedPoints.getLastD default).indexA
  let trackAPoints := trackA.elevation
  let loopPoints := (List.range' startIdxA (min (endIdxA + 1) trackAPoints.length - startIdxA)).map
    (fun i => Point.mk (trackAPoints.getD i default).lat (trackAPoints.getD i default).lng)
  if loopPoints.length < 2 then
    loopPoints ++ sortedPoints.map (fun mp => Point.mk mp.pointA.lat mp.pointA.lng)
  else loopPoints

/-- `createSegment(matchingPoints, trackA, trackB)`. -/
def createSegment (g : GeoPrims) (matchingPoints : List MatchingPoint)
    (trackA trackB : GpxTrack) : MatchedSegment :=
  let sortedPoints := matchingPoints.mergeSort (fun a b => a.indexA ≤ b.indexA)
  let startIdxA := (sortedPoints.headD default).indexA
  let endIdxA := (sortedPoints.getLastD default).indexA
  let sortedByB := matchingPoints.mergeSort (fun a b => a.indexB ≤ b.indexB)
  let startIdxB := (sortedByB.headD default).indexB
  let endIdxB := (sortedByB.getLastD default).indexB
  let rawPoints := createSegmentRawPoints matchingPoints trackA
  let smoothed := smoothPolyline rawPoints 5
  let points := simplifyTotal g smoothed (3 / 200000)
  let distance := (rawPoints.zip rawPoints.tail).foldl
    (fun acc pq => acc + g.hav pq.1.lat pq.1.lng pq.2.lat pq.2.lng) 0
  let dir := calculateSegmentDirection g points
  { id := trackA.id ++ ['-'] ++ trackB.id ++ ['-'] ++
      natToDec ((matchingPoints.headD default).indexA)
    trackAId := trackA.id
    trackBId := trackB.id
    trackAName := trackA.name
    trackBName := trackB.name
    points := points
    distance := distance
    direction := dir.1
    directionLabel := dir.2
    startIndexA := startIdxA
    endIndexA := endIdxA
    startIndexB := startIdxB
    endIndexB := endIdxB }

/-- `groupIntoSegments(matchingPoints, trackA, trackB, algorithm)`. -/
def groupIntoSegments (g : GeoPrims) (matchingPoints : List MatchingPoint)
    (trackA trackB : GpxTrack) (algorithm : MatchingAlgorithm) : List MatchedSegment :=
  if matchingPoints.length < MIN_SEGMENT_POINTS then []
  else
    let allowOppositeProgression := decide (algorithm = MatchingAlgorithm.bidirectional)
    let rawSegments := buildRawSegments allowOppositeProgression matchingPoints
    let nearbyMerged := mergeNearbySegments g rawSegments
    let fullyMerged := mergeOverlappingSegments g nearbyMerged algorithm
    (fullyMerged.map (fun sp => createSegment g sp trackA trackB)).filter
      (fun s => MIN_SEGMENT_DISTANCE_KM ≤ s.distance)

/-- `findMatchesBetweenTracks(trackA, trackB, deltaMeters, algorithm)`. -/
def findMatchesBetweenTracks (g : GeoPrims) (trackA trackB : GpxTrack)
    (deltaMeters : ℚ) (algorithm : MatchingAlgorithm) : List MatchedSegment :=
  let pointsA := trackA.elevation
  let pointsB := trackB.elevation
  if pointsA.length < MIN_SEGMENT_POINTS ∨ pointsB.length < MIN_SEGMENT_POINTS then []
  else
    let deltaKm := deltaMeters / 1000
    let sampleRate :=
      if algorithm = MatchingAlgorithm.standard then POINT_SAMPLE_RATE
      else getAdaptiveSampleRate pointsA.length
    let checkBearing := decide (algorithm ≠ MatchingAlgorithm.bidirectional)
    let matchingPoints := matchCandidates g pointsA pointsB deltaKm sampleRate checkBearing
    groupIntoSegments g matchingPoints trackA trackB algorithm

/-- The ordered pairs `(tracks[i], tracks[j])`, `i < j`, visited by the two
nested loops of `findMatchingSegments`. -/
def trackPairs : List GpxTrack → List (GpxTrack × GpxTrack)
  | [] => []
  | t :: rest => rest.map (fun u => (t, u)) ++ trackPairs rest

/-- `findMatchingSegments(tracks, deltaMeters, algorithm)`: the exported
driver; the final `sort((a, b) => b.distance - a.distance)` is a stable
descending sort by distance. -/
def findMatchingSegments (g : GeoPrims) (tracks : List GpxTrack)
    (deltaMeters : ℚ) (algorithm : MatchingAlgorithm) : List MatchedSegment :=
  let visibleTracks := tracks.filter (fun t => t.visible)
  if visibleTracks.length < 2 then []
  else
    let allSegments := (trackPairs visibleTracks).flatMap
      (fun ab => findMatchesBetweenTracks g ab.1 ab.2 deltaMeters algorithm)
    allSegments.mergeSort (fun a b => b.distance ≤ a.distance)

/-! ### Concrete instantiations for witnesses and counterexamples

To evaluate the engine on concrete inputs the abstract primitives must be
instantiated with computable functions.  The instantiations below agree with
the real primitives on every property the concrete runs rely on:

* `havL1` is a non-negative, symmetric distance that vanishes exactly on
  coincident coordinates, like the haversine; for the east-west point rows
  used below (equal latitudes, equal distances for symmetric longitude
  offsets) it orders and ties distances exactly as the haversine does.
* `bearConst` returns bearing 0 for every step, as the haversine bearing
  does on a track heading due north (all candidate bearing checks pass).
* `sqPos` maps 0 to 0 and positive arguments to a positive value, which is
  all `perpendicularDistance` observes of `Math.sqrt` through its `len = 0`
  test and its strict comparisons against `maxDist` and the tolerance. -/

/-- Concrete distance primitive: a scaled L1 metric on coordinates. -/
def havL1 : ℚ → ℚ → ℚ → ℚ → ℚ := fun lat1 lng1 lat2 lng2 =>
  111 * (|lat2 - lat1| + |lng2 - lng1|)

/-- Concrete bearing primitive: constant 0. -/
def bearConst : ℚ → ℚ → ℚ → ℚ → ℚ := fun _ _ _ _ => 0

/-- Concrete square-root substitute: 0 at 0 (and below), 1 on positives. -/
def sqPos : ℚ → ℚ := fun q => if q ≤ 0 then 0 else 1

/-- The concrete primitive bundle. -/
def geoC : GeoPrims := ⟨havL1, bearConst, sqPos⟩

/-- A 22-point track along the equator, one point every 0.0001° of
longitude (about 11 m with `havL1`, total about 233 m). -/
def lineTrack (id name : List Char) : GpxTrack :=
  ⟨id, name, (List.range 22).map (fun i : ℕ => ⟨0, (i : ℚ) / 10000⟩), true⟩

/-- Two points equidistant from the origin, east and west, falling in
adjacent grid cells: a distance tie between different indices. -/
def tiePoints : List Point := [⟨0, 1 / 1000⟩, ⟨0, -1 / 1000⟩]

/-- Three identical-geometry tracks whose id strings make two different
track pairs build the same segment id:
`"a-b" + "-" + "a"` and `"a" + "-" + "b-a"` both read `a-b-a`. -/
def collidingTracks : List GpxTrack :=
  [lineTrack ['a', '-', 'b'] ['t'], lineTrack ['a'] ['t'], lineTrack ['b', '-', 'a'] ['t']]

/-- A 5-point zigzag polyline on which window 3 and window 5 smoothing
differ. -/
def zigzag : List Point := [⟨0, 0⟩, ⟨1, 0⟩, ⟨0, 0⟩, ⟨1, 0⟩, ⟨0, 0⟩]

/-! ## Theorems -/

/-- C5: for bearings `b1, b2` in `[0, 360)` and tolerance `t ≥ 0`,
`bearingsAreSimilar b1 b2 t` returns true iff the minimal circular
difference `min |b1 - b2| (360 - |b1 - b2|)` is at most `t`. -/
theorem bearingsAreSimilar_iff_minCircularDiff (b1 b2 tolerance : ℚ)
    (hb1l : 0 ≤ b1) (hb1u : b1 < 360) (hb2l : 0 ≤ b2) (hb2u : b2 < 360)
    (ht : 0 ≤ tolerance) :
    bearingsAreSimilar b1 b2 tolerance = true ↔
      min |b1 - b2| (360 - |b1 - b2|) ≤ tolerance := by
  simp only [bearingsAreSimilar, decide_eq_true_eq]
  rcases le_or_lt |b1 - b2| 180 with h | h
  · rw [if_neg (by linarith), min_eq_left (by linarith)]
  · rw [if_pos h, min_eq_right (by linarith)]

/-- Witness for C5 at the spec's two examples: `bearingsAreSimilar 10 350 45`
is true and `bearingsAreSimilar 0 180 45` is false, matching the minimal
circular difference in both cases. -/
theorem bearingsAreSimilar_iff_minCircularDiff_witness :
    (bearingsAreSimilar 10 350 45 = true ↔
      min |(10 : ℚ) - 350| (360 - |(10 : ℚ) - 350|) ≤ 45) ∧
    (bearingsAreSimilar 0 180 45 = true ↔
      min |(0 : ℚ) - 180| (360 - |(0 : ℚ) - 180|) ≤ 45) ∧
    bearingsAreSimilar 10 350 45 = true ∧ bearingsAreSimilar 0 180 45 = false :=
  ⟨bearingsAreSimilar_iff_minCircularDiff 10 350 45 (by norm_num) (by norm_num)
      (by norm_num) (by norm_num) (by norm_num),
    bearingsAreSimilar_iff_minCircularDiff 0 180 45 (by norm_num) (by norm_num)
      (by norm_num) (by norm_num) (by norm_num),
    by decide, by decide⟩

/-- C7: smoothing never moves the endpoints: for every non-empty polyline and
every window size, the first and last points of `smoothPolyline points w`
are the first and last points of `points`. -/
theorem smoothPolyline_endpoints (points : List Point) (windowSize : ℤ)
    (h : points ≠ []) :
    (smoothPolyline points windowSize).head? = points.head? ∧
    (smoothPolyline points windowSize).getLast? = points.getLast? := by
  have hn : 0 < points.length := List.length_pos.mpr h
  have hA : points.head? = some (points.headD default) := by
    cases points with
    | nil => simp at h
    | cons p ps => rfl
  have hB : points.getLast? = some (points.getLastD default) := by
    rw [List.getLastD_eq_getLast?, List.getLast?_eq_getElem?,
      List.getElem?_eq_getElem (by omega)]
    rfl
  unfold smoothPolyline
  by_cases hle : (points.length : ℤ) ≤ windowSize
  · rw [if_pos hle]; exact ⟨rfl, rfl⟩
  · rw [if_neg hle]
    set sm := (List.range points.length).map
      (smoothAvgAt points (Int.fdiv windowSize 2)) with hsm
    have hlen : sm.length = points.length := by
      rw [hsm, List.length_map, List.length_range]
    have hlen1 : (sm.set 0 (points.headD default)).length = points.length := by
      rw [List.length_set, hlen]
    have hlen2 : ((sm.set 0 (points.headD default)).set (points.length - 1)
        (points.getLastD default)).length = points.length := by
      rw [List.length_set, hlen1]
    constructor
    · rw [List.head?_eq_getElem?]
      rcases Nat.lt_or_ge points.length 2 with h2 | h2
      · have h0 : points.length - 1 = 0 := by omega
        rw [h0]
        have e1 : ((sm.set 0 (points.headD default)).set 0
            (points.getLastD default))[(0 : ℕ)]? = some (points.getLastD default) :=
          List.getElem?_set_self (by omega)
        rw [e1, hA]
        cases points with
        | nil => simp at h
        | cons p ps =>
          cases ps with
          | nil => rfl
          | cons q qs => simp only [List.length_cons] at h2; omega
      · have e1 : ((sm.set 0 (points.headD default)).set (points.length - 1)
            (points.getLastD default))[(0 : ℕ)]? =
            (sm.set 0 (points.headD default))[(0 : ℕ)]? :=
          List.getElem?_set_ne (by omega)
        have e2 : (sm.set 0 (points.headD default))[(0 : ℕ)]? =
            some (points.headD default) :=
          List.getElem?_set_self (by omega)
        rw [e1, e2, hA]
    · rw [List.getLast?_eq_getElem?, hlen2]
      have e3 : ((sm.set 0 (points.headD default)).set (points.length - 1)
          (points.getLastD default))[points.length - 1]? =
          some (points.getLastD default) :=
        List.getElem?_set_self (by omega)
      rw [e3, hB]

/-- Witness for C7 at a concrete polyline and window. -/
theorem smoothPolyline_endpoints_witness :
    zigzag ≠ [] ∧
    (smoothPolyline zigzag 3).head? = zigzag.head? ∧
    (smoothPolyline zigzag 3).getLast? = zigzag.getLast? :=
  ⟨by decide, smoothPolyline_endpoints zigzag 3 (by decide)⟩

/-- C8 counterexample: calling `smoothPolyline` without an explicit window
size is not the same as calling it with window 5 — on a 5-point zigzag,
window 5 returns the polyline unchanged (`length ≤ windowSize`) while the
actual default smooths it. -/
theorem smoothPolyline_default_ne_window5 :
    smoothPolyline zigzag ≠ smoothPolyline zigzag 5 := by decide

/-- C8 amended: the default `windowSize` of `smoothPolyline` is 3, not 5
(the pipeline's `createSegment` passes 5 explicitly at its call site). -/
theorem smoothPolyline_default_eq_window3 (points : List Point) :
    smoothPolyline points = smoothPolyline points 3 := rfl

/-- C9: with fewer than two visible tracks (in particular for `[]` and for a
single track), `findMatchingSegments` returns the empty list for every
primitive instantiation, delta and algorithm. -/
theorem findMatchingSegments_lt_two_visible (g : GeoPrims) (tracks : List GpxTrack)
    (deltaMeters : ℚ) (algorithm : MatchingAlgorithm)
    (h : (tracks.filter (fun t => t.visible)).length < 2) :
    findMatchingSegments g tracks deltaMeters algorithm = [] := by
  unfold findMatchingSegments
  rw [if_pos h]

/-- Witness for C9 on the empty track list and on a single visible track. -/
theorem findMatchingSegments_lt_two_visible_witness :
    (([] : List GpxTrack).filter (fun t => t.visible)).length < 2 ∧
    findMatchingSegments geoC [] 50 MatchingAlgorithm.standard = [] ∧
    findMatchingSegments geoC [lineTrack ['a'] ['a']] 50 MatchingAlgorithm.adaptive = [] :=
  ⟨by decide, findMatchingSegments_lt_two_visible geoC [] 50 MatchingAlgorithm.standard
      (by decide),
    findMatchingSegments_lt_two_visible geoC [lineTrack ['a'] ['a']] 50
      MatchingAlgorithm.adaptive (by decide)⟩

/-- C1 counterexample: with maxDistanceKm = cellSizeKm = 0.5 and two points
at equal distance from the query (a tie the haversine also produces for
symmetric east/west offsets on the equator), the grid query scans the
western cell (dx = -1) first and returns index 1, while the exhaustive
linear scan keeps the first minimum, index 0.  Same distance, different
index. -/
theorem findNearestWithinDistance_ne_linearScan :
    findNearestWithinDistance havL1 tiePoints (1 / 2) 0 0 (1 / 2) =
      some (1, 111 / 1000) ∧
    linearScanNearest havL1 tiePoints 0 0 (1 / 2) = some (0, 111 / 1000) := by
  constructor <;> decide

/-- C4 counterexample: at `deltaMeters = 0` the matcher is not empty-by-design:
two identical tracks match point-for-point at distance exactly 0
(`0 ≤ maxDistanceKm` holds with equality), producing a matched segment. -/
theorem findMatchesBetweenTracks_delta_zero_ne_nil :
    findMatchesBetweenTracks geoC (lineTrack ['a'] ['a']) (lineTrack ['b'] ['b']) 0
      MatchingAlgorithm.standard ≠ [] := by decide

/-- C10 counterexample: in a single `findMatchingSegments` call over three
tracks with ids `a-b`, `a`, `b-a`, the pairs `(a-b, a)` and `(a, b-a)` both
build the id string `a-b-a-0`, so the returned ids are not pairwise
distinct. -/
theorem findMatchingSegments_ids_not_nodup :
    ¬ ((findMatchingSegments geoC collidingTracks 50 MatchingAlgorithm.standard).map
      (fun s => s.id)).Nodup := by decide

/-! ### The grid query versus the linear scan (C1) -/

theorem foldl_nearestStep_some (hav : ℚ → ℚ → ℚ → ℚ → ℚ) (lat lng maxD : ℚ) :
    ∀ (E : List (ℕ × Point)) (b : ℕ × ℚ),
      ∃ c, E.foldl (nearestStep hav lat lng maxD) (some b) = some c := by
  intro E
  induction E with
  | nil => exact fun b => ⟨b, rfl⟩
  | cons e E ih =>
    intro b
    simp only [List.foldl_cons, nearestStep]
    split
    · exact ih _
    · exact ih _

theorem nearestFold_eq_none_iff (hav : ℚ → ℚ → ℚ → ℚ → ℚ) (lat lng maxD : ℚ)
    (E : List (ℕ × Point)) :
    nearestFold hav lat lng maxD E = none ↔
      ∀ e ∈ E, ¬ hav lat lng e.2.lat e.2.lng ≤ maxD := by
  induction E with
  | nil => simp [nearestFold]
  | cons e E ih =>
    unfold nearestFold at ih ⊢
    simp only [List.foldl_cons]
    by_cases hq : hav lat lng e.2.lat e.2.lng ≤ maxD
    · have : nearestStep hav lat lng maxD none e = some (e.1, hav lat lng e.2.lat e.2.lng) := by
        simp [nearestStep, hq]
      rw [this]
      obtain ⟨c, hc⟩ := foldl_nearestStep_some hav lat lng maxD E _
      rw [hc]
      simp only [reduceCtorEq, false_iff]
      intro hall
      exact (hall e (by simp)) hq
    · have : nearestStep hav lat lng maxD none e = none := by
        simp [nearestStep, hq]
      rw [this, ih]
      constructor
      · intro hall e' he'
        rcases List.mem_cons.mp he' with rfl | h'
        · exact hq
        · exact hall e' h'
      · intro hall e' he'
        exact hall e' (List.mem_cons_of_mem _ he')

theorem foldl_nearestStep_spec (hav : ℚ → ℚ → ℚ → ℚ → ℚ) (lat lng maxD : ℚ) :
    ∀ (E : List (ℕ × Point)) (b c : ℕ × ℚ),
      E.foldl (nearestStep hav lat lng maxD) (some b) = some c →
      (c = b ∨ ∃ e ∈ E, c = (e.1, hav lat lng e.2.lat e.2.lng) ∧ c.2 ≤ maxD) ∧
      c.2 ≤ b.2 ∧
      ∀ e ∈ E, hav lat lng e.2.lat e.2.lng ≤ maxD → c.2 ≤ hav lat lng e.2.lat e.2.lng := by
  intro E
  induction E with
  | nil =>
    intro b c hc
    simp only [List.foldl_nil, Option.some.injEq] at hc
    subst hc
    exact ⟨Or.inl rfl, le_refl _, by simp⟩
  | cons e E ih =>
    intro b c hc
    simp only [List.foldl_cons] at hc
    by_cases hup : hav lat lng e.2.lat e.2.lng < b.2 ∧ hav lat lng e.2.lat e.2.lng ≤ maxD
    · have hstep : nearestStep hav lat lng maxD (some b) e =
          some (e.1, hav lat lng e.2.lat e.2.lng) := by
        simp [nearestStep, hup]
      rw [hstep] at hc
      obtain ⟨hprov, hle, hmin⟩ := ih _ _ hc
      refine ⟨?_, ?_, ?_⟩
      · rcases hprov with rfl | ⟨e', he', hce', hcm⟩
        · exact Or.inr ⟨e, by simp, rfl, hup.2⟩
        · exact Or.inr ⟨e', List.mem_cons_of_mem _ he', hce', hcm⟩
      · exact le_trans hle (le_of_lt hup.1)
      · intro e' he' hq'
        rcases List.mem_cons.mp he' with rfl | h'
        · exact hle
        · exact hmin e' h' hq'
    · have hstep : nearestStep hav lat lng maxD (some b) e = some b := by
        simp only [nearestStep]
        rw [if_neg hup]
      rw [hstep] at hc
      obtain ⟨hprov, hle, hmin⟩ := ih _ _ hc
      refine ⟨?_, hle, ?_⟩
      · rcases hprov with rfl | ⟨e', he', hce', hcm⟩
        · exact Or.inl rfl
        · exact Or.inr ⟨e', List.mem_cons_of_mem _ he', hce', hcm⟩
      · intro e' he' hq'
        rcases List.mem_cons.mp he' with rfl | h'
        · rcases not_and_or.mp hup with h | h
          · exact le_trans hle (not_lt.mp h)
          · exact absurd hq' h
        · exact hmin e' h' hq'

theorem nearestFold_some_spec (hav : ℚ → ℚ → ℚ → ℚ → ℚ) (lat lng maxD : ℚ) :
    ∀ (E : List (ℕ × Point)) (c : ℕ × ℚ),
      nearestFold hav lat lng maxD E = some c →
      (∃ e ∈ E, c = (e.1, hav lat lng e.2.lat e.2.lng)) ∧ c.2 ≤ maxD ∧
      ∀ e ∈ E, hav lat lng e.2.lat e.2.lng ≤ maxD → c.2 ≤ hav lat lng e.2.lat e.2.lng := by
  intro E
  induction E with
  | nil => intro c hc; simp [nearestFold] at hc
  | cons e E ih =>
    intro c hc
    unfold nearestFold at hc
    simp only [List.foldl_cons] at hc
    by_cases hq : hav lat lng e.2.lat e.2.lng ≤ maxD
    · have hstep : nearestStep hav lat lng maxD none e =
          some (e.1, hav lat lng e.2.lat e.2.lng) := by simp [nearestStep, hq]
      rw [hstep] at hc
      obtain ⟨hprov, hle, hmin⟩ := foldl_nearestStep_spec hav lat lng maxD E _ _ hc
      refine ⟨?_, ?_, ?_⟩
      · rcases hprov with rfl | ⟨e', he', hce', _⟩
        · exact ⟨e, by simp, rfl⟩
        · exact ⟨e', List.mem_cons_of_mem _ he', hce'⟩
      · rcases hprov with rfl | ⟨_, _, _, hcm⟩
        · exact hq
        · exact hcm
      · intro e' he' hq'
        rcases List.mem_cons.mp he' with rfl | h'
        · exact hle
        · exact hmin e' h' hq'
    · have hstep : nearestStep hav lat lng maxD none e = none := by simp [nearestStep, hq]
      rw [hstep] at hc
      obtain ⟨hprov, hle, hmin⟩ := ih c hc
      refine ⟨?_, hle, ?_⟩
      · obtain ⟨e', he', hce'⟩ := hprov
        exact ⟨e', List.mem_cons_of_mem _ he', hce'⟩
      · intro e' he' hq'
        rcases List.mem_cons.mp he' with rfl | h'
        · exact absurd hq' hq
        · exact hmin e' h' hq'

theorem mem_intRange (a b z : ℤ) : z ∈ intRange a b ↔ a ≤ z ∧ z ≤ b := by
  simp only [intRange, List.mem_map, List.mem_range]
  constructor
  · rintro ⟨k, hk, rfl⟩
    omega
  · rintro ⟨h1, h2⟩
    exact ⟨(z - a).toNat, by omega, by omega⟩

theorem mem_searchOffsets (r : ℤ) (o : ℤ × ℤ) :
    o ∈ searchOffsets r ↔ -r ≤ o.1 ∧ o.1 ≤ r ∧ -r ≤ o.2 ∧ o.2 ≤ r := by
  rcases o with ⟨dx, dy⟩
  simp only [searchOffsets, List.mem_flatMap, List.mem_map, Prod.mk.injEq]
  constructor
  · rintro ⟨x, hx, y, hy, rfl, rfl⟩
    rw [mem_intRange] at hx hy
    exact ⟨hx.1, hx.2, hy.1, hy.2⟩
  · rintro ⟨h1, h2, h3, h4⟩
    exact ⟨dx, (mem_intRange _ _ _).mpr ⟨h1, h2⟩, dy, (mem_intRange _ _ _).mpr ⟨h3, h4⟩, rfl, rfl⟩

theorem mem_gridBucket (points : List Point) (cellSize : ℚ) (key : ℤ × ℤ)
    (e : ℕ × Point) :
    e ∈ gridBucket points cellSize key ↔
      e ∈ points.enum ∧ cellKey cellSize e.2.lat e.2.lng = key := by
  simp [gridBucket, List.mem_filter]

theorem mem_gridScan (points : List Point) (cellSize : ℚ) (center : ℤ × ℤ) (r : ℤ)
    (e : ℕ × Point) :
    e ∈ (searchOffsets r).flatMap
        (fun o => gridBucket points cellSize (center.1 + o.1, center.2 + o.2)) ↔
      e ∈ points.enum ∧
        (-r ≤ (cellKey cellSize e.2.lat e.2.lng).1 - center.1 ∧
          (cellKey cellSize e.2.lat e.2.lng).1 - center.1 ≤ r ∧
          -r ≤ (cellKey cellSize e.2.lat e.2.lng).2 - center.2 ∧
          (cellKey cellSize e.2.lat e.2.lng).2 - center.2 ≤ r) := by
  simp only [List.mem_flatMap]
  constructor
  · rintro ⟨o, ho, hmem⟩
    rw [mem_gridBucket] at hmem
    rw [mem_searchOffsets] at ho
    refine ⟨hmem.1, ?_⟩
    rw [hmem.2]
    simp only [Prod.fst, Prod.snd]
    omega
  · rintro ⟨hmem, h1, h2, h3, h4⟩
    refine ⟨((cellKey cellSize e.2.lat e.2.lng).1 - center.1,
      (cellKey cellSize e.2.lat e.2.lng).2 - center.2), ?_, ?_⟩
    · rw [mem_searchOffsets]
      exact ⟨h1, h2, h3, h4⟩
    · rw [mem_gridBucket]
      exact ⟨hmem, by simp⟩

/-- C1 amended: under the coverage condition — every point within
`maxDistanceKm` of the query lies in a cell within the search radius of the
query's cell — the grid query returns `none` exactly when the exhaustive
linear scan finds no point within `maxDistanceKm`, and when both succeed they
return the same (minimal) distance.  (The returned indices can differ on
ties, see the counterexample.) -/
theorem findNearest_agrees_with_linearScan_of_covered (hav : ℚ → ℚ → ℚ → ℚ → ℚ)
    (points : List Point) (cellSizeKm lat lng maxDistanceKm : ℚ)
    (hcov : ∀ e ∈ points.enum, hav lat lng e.2.lat e.2.lng ≤ maxDistanceKm →
      cellCovered cellSizeKm lat lng maxDistanceKm e.2) :
    (findNearestWithinDistance hav points cellSizeKm lat lng maxDistanceKm = none ↔
      linearScanNearest hav points lat lng maxDistanceKm = none) ∧
    ∀ i d j d', findNearestWithinDistance hav points cellSizeKm lat lng maxDistanceKm =
        some (i, d) →
      linearScanNearest hav points lat lng maxDistanceKm = some (j, d') → d = d' := by
  have hGdef : findNearestWithinDistance hav points cellSizeKm lat lng maxDistanceKm =
      nearestFold hav lat lng maxDistanceKm
        ((searchOffsets (gridSearchRadius cellSizeKm maxDistanceKm)).flatMap
          (fun o => gridBucket points (cellSizeKm / 111)
            ((cellKey (cellSizeKm / 111) lat lng).1 + o.1,
              (cellKey (cellSizeKm / 111) lat lng).2 + o.2))) := rfl
  set r := gridSearchRadius cellSizeKm maxDistanceKm with hr
  set cs := cellSizeKm / 111 with hcs
  set c := cellKey cs lat lng with hc
  set Eg := (searchOffsets r).flatMap
    (fun o => gridBucket points cs (c.1 + o.1, c.2 + o.2)) with hEg
  have sub1 : ∀ e ∈ Eg, e ∈ points.enum := by
    intro e he
    exact ((mem_gridScan points cs c r e).mp he).1
  have sub2 : ∀ e ∈ points.enum, hav lat lng e.2.lat e.2.lng ≤ maxDistanceKm → e ∈ Eg := by
    intro e he hq
    have hcc := hcov e he hq
    simp only [cellCovered] at hcc
    rw [← hcs, ← hc, ← hr] at hcc
    rw [hEg, mem_gridScan]
    obtain ⟨⟨h1, h2⟩, h3, h4⟩ := hcc
    exact ⟨he, h1, h2, h3, h4⟩
  constructor
  · rw [hGdef]
    unfold linearScanNearest
    rw [nearestFold_eq_none_iff, nearestFold_eq_none_iff]
    constructor
    · intro hall e he hq
      exact hall e (sub2 e he hq) hq
    · intro hall e he
      exact hall e (sub1 e he)
  · intro i d j d' hG hL
    rw [hGdef] at hG
    unfold linearScanNearest at hL
    obtain ⟨⟨eg, hegm, hegv⟩, hgle, hgmin⟩ := nearestFold_some_spec hav lat lng
      maxDistanceKm _ _ hG
    obtain ⟨⟨el, helm, helv⟩, hlle, hlmin⟩ := nearestFold_some_spec hav lat lng
      maxDistanceKm _ _ hL
    have h1 : d ≤ d' := by
      have : d' = hav lat lng el.2.lat el.2.lng := congrArg Prod.snd helv
      rw [this]
      exact hgmin el (sub2 el helm (by rw [← this]; exact hlle)) (by rw [← this]; exact hlle)
    have h2 : d' ≤ d := by
      have : d = hav lat lng eg.2.lat eg.2.lng := congrArg Prod.snd hegv
      rw [this]
      exact hlmin eg (sub1 eg hegm) (by rw [← this]; exact hgle)
    exact le_antisymm h1 h2

/-- Witness for C1 amended: on the tie example the coverage hypothesis holds,
both queries succeed, and the returned distances agree. -/
theorem findNearest_agrees_with_linearScan_of_covered_witness :
    (∀ e ∈ tiePoints.enum, havL1 0 0 e.2.lat e.2.lng ≤ 1 / 2 →
      cellCovered (1 / 2) 0 0 (1 / 2) e.2) ∧
    ((findNearestWithinDistance havL1 tiePoints (1 / 2) 0 0 (1 / 2) = none ↔
      linearScanNearest havL1 tiePoints 0 0 (1 / 2) = none) ∧
    ∀ i d j d', findNearestWithinDistance havL1 tiePoints (1 / 2) 0 0 (1 / 2) =
        some (i, d) →
      linearScanNearest havL1 tiePoints 0 0 (1 / 2) = some (j, d') → d = d') :=
  ⟨by decide, findNearest_agrees_with_linearScan_of_covered havL1 tiePoints (1 / 2) 0 0
    (1 / 2) (by decide)⟩

/-! ### Negative delta (C4) -/

/-- C4 amended: for every `deltaMeters < 0` (and any non-negative distance
primitive, as the haversine is), `findMatchesBetweenTracks` returns the empty
list: every grid query compares a non-negative distance against a negative
`deltaKm` and finds nothing.  At `deltaMeters = 0` the result can be
non-empty (see the counterexample): exactly coincident points still match at
distance 0. -/
theorem findMatchesBetweenTracks_neg_delta (g : GeoPrims) (trackA trackB : GpxTrack)
    (deltaMeters : ℚ) (algorithm : MatchingAlgorithm)
    (hhav : ∀ a b c d, 0 ≤ g.hav a b c d) (hδ : deltaMeters < 0) :
    findMatchesBetweenTracks g trackA trackB deltaMeters algorithm = [] := by
  unfold findMatchesBetweenTracks
  by_cases hlen : trackA.elevation.length < MIN_SEGMENT_POINTS ∨
      trackB.elevation.length < MIN_SEGMENT_POINTS
  · rw [if_pos hlen]
  · rw [if_neg hlen]
    have hnone : ∀ sampleRate checkBearing i,
        candidateAt g trackA.elevation trackB.elevation (deltaMeters / 1000)
          sampleRate checkBearing i = none := by
      intro sampleRate checkBearing i
      have hnn : findNearestPointWithinDelta g trackB.elevation (deltaMeters / 1000)
          (trackA.elevation.getD i default) = none := by
        unfold findNearestPointWithinDelta findNearestWithinDistance
        rw [nearestFold_eq_none_iff]
        intro e _ hq
        have h0 : deltaMeters / 1000 < 0 := div_neg_of_neg_of_pos hδ (by norm_num)
        exact absurd hq (not_le.mpr (lt_of_lt_of_le h0 (hhav _ _ _ _)))
      unfold candidateAt
      rw [hnn]
    have hcand : matchCandidates g trackA.elevation trackB.elevation
        (deltaMeters / 1000) (if algorithm = MatchingAlgorithm.standard then
          POINT_SAMPLE_RATE else getAdaptiveSampleRate trackA.elevation.length)
        (decide (algorithm ≠ MatchingAlgorithm.bidirectional)) = [] := by
      unfold matchCandidates
      rw [List.filterMap_eq_nil_iff]
      intro i _
      exact hnone _ _ i
    simp only [hcand]
    unfold groupIntoSegments
    rw [if_pos (by simp [MIN_SEGMENT_POINTS])]

/-- Witness for C4 amended at a concrete negative delta. -/
theorem findMatchesBetweenTracks_neg_delta_witness :
    (∀ a b c d, 0 ≤ havL1 a b c d) ∧ (-5 : ℚ) < 0 ∧
    findMatchesBetweenTracks geoC (lineTrack ['a'] ['a']) (lineTrack ['b'] ['b']) (-5)
      MatchingAlgorithm.standard = [] :=
  ⟨fun a b c d => by unfold havL1; positivity, by norm_num,
    findMatchesBetweenTracks_neg_delta geoC (lineTrack ['a'] ['a'])
      (lineTrack ['b'] ['b']) (-5) MatchingAlgorithm.standard
      (fun a b c d => by show 0 ≤ havL1 a b c d; unfold havL1; positivity)
      (by norm_num)⟩

/-! ### Output ordering (C3) -/

/-- C3: the list returned by `findMatchingSegments` is always sorted by
`distance` in descending order, for every primitive instantiation, track
list, delta and algorithm. -/
theorem findMatchingSegments_sorted_desc (g : GeoPrims) (tracks : List GpxTrack)
    (deltaMeters : ℚ) (algorithm : MatchingAlgorithm) :
    List.Pairwise (fun a b => b.distance ≤ a.distance)
      (findMatchingSegments g tracks deltaMeters algorithm) := by
  unfold findMatchingSegments
  by_cases h : (tracks.filter (fun t => t.visible)).length < 2
  · rw [if_pos h]
    exact List.Pairwise.nil
  · rw [if_neg h]
    have hs := @List.sorted_mergeSort MatchedSegment
      (fun a b : MatchedSegment => decide (b.distance ≤ a.distance))
      (fun a b c h1 h2 => by
        simp only [decide_eq_true_eq] at h1 h2 ⊢
        exact le_trans h2 h1)
      (fun a b => by
        simp only [Bool.or_eq_true, decide_eq_true_eq]
        exact le_total b.distance a.distance)
      ((trackPairs (tracks.filter (fun t => t.visible))).flatMap
        (fun ab => findMatchesBetweenTracks g ab.1 ab.2 deltaMeters algorithm))
    exact hs.imp (fun h => of_decide_eq_true h)

/-! ### Douglas-Peucker idempotence (C6)

The scan of `simplifyPolyline` keeps the first index attaining the maximum
interior distance; `bestAux` is characterized below, and idempotence follows
by showing that re-running the scan on a simplified polyline splits at the
same pivot. -/

theorem bestAux_snd_nonneg (d : ℕ → ℚ) (K : ℕ) : 0 ≤ (bestAux d K).2 := by
  induction K with
  | zero => exact le_refl 0
  | succ K ih =>
    simp only [bestAux]
    split
    · next h => exact le_of_lt (lt_of_le_of_lt ih h)
    · exact ih

theorem bestAux_fst_le (d : ℕ → ℚ) (K : ℕ) : (bestAux d K).1 ≤ K := by
  induction K with
  | zero => exact le_refl 0
  | succ K ih =>
    simp only [bestAux]
    split
    · exact le_refl _
    · exact le_trans ih (by omega)

theorem bestAux_le_snd (d : ℕ → ℚ) (K : ℕ) :
    ∀ i, 1 ≤ i → i ≤ K → d i ≤ (bestAux d K).2 := by
  induction K with
  | zero => intro i h1 h2; omega
  | succ K ih =>
    intro i h1 h2
    simp only [bestAux]
    split
    · next h =>
      rcases Nat.lt_or_ge i (K + 1) with hi | hi
      · exact le_of_lt (lt_of_le_of_lt (ih i h1 (by omega)) h)
      · have : i = K + 1 := by omega
        subst this
        exact le_refl _
    · next h =>
      rcases Nat.lt_or_ge i (K + 1) with hi | hi
      · exact ih i h1 (by omega)
      · have : i = K + 1 := by omega
        subst this
        exact not_lt.mp h

theorem bestAux_spec (d : ℕ → ℚ) (K : ℕ) :
    ((bestAux d K).1 = 0 ∧ (bestAux d K).2 = 0) ∨
    (1 ≤ (bestAux d K).1 ∧ (bestAux d K).1 ≤ K ∧
      d (bestAux d K).1 = (bestAux d K).2 ∧ 0 < (bestAux d K).2 ∧
      ∀ i, 1 ≤ i → i < (bestAux d K).1 → d i < (bestAux d K).2) := by
  induction K with
  | zero => exact Or.inl ⟨rfl, rfl⟩
  | succ K ih =>
    simp only [bestAux]
    split
    · next h =>
      refine Or.inr ⟨by omega, le_refl _, rfl,
        lt_of_le_of_lt (bestAux_snd_nonneg d K) h, ?_⟩
      intro i h1 h2
      exact lt_of_le_of_lt (bestAux_le_snd d K i h1 (by omega)) h
    · next h =>
      rcases ih with ⟨h1, h2⟩ | ⟨h1, h2, h3, h4, h5⟩
      · exact Or.inl ⟨h1, h2⟩
      · exact Or.inr ⟨h1, by omega, h3, h4, h5⟩

theorem bestAux_unique (d : ℕ → ℚ) (j : ℕ) (hj1 : 1 ≤ j) (hdj : 0 < d j)
    (hlt : ∀ i, 1 ≤ i → i < j → d i < d j) :
    ∀ K, j ≤ K → (∀ i, j < i → i ≤ K → d i ≤ d j) → bestAux d K = (j, d j) := by
  intro K
  induction K with
  | zero => intro h; omega
  | succ K ih =>
    intro hjK hle
    simp only [bestAux]
    by_cases hj : j = K + 1
    · subst hj
      have hb : (bestAux d K).2 < d (K + 1) := by
        rcases bestAux_spec d K with ⟨_, h0⟩ | ⟨h1, h2, h3, _, _⟩
        · rw [h0]; exact hdj
        · rw [← h3]; exact hlt _ h1 (by omega)
      rw [if_pos hb]
    · have hres := ih (by omega) (fun i hi1 hi2 => hle i hi1 (by omega))
      rw [hres]
      have : ¬ d j < d (K + 1) := not_lt.mpr (hle (K + 1) (by omega) (by omega))
      rw [if_neg this]

/-! Auxiliary list lemmas. -/

theorem sublist_tail_of_sublist {α : Type} {s t : List α} (h : List.Sublist s t) :
    List.Sublist s.tail t.tail := by
  induction h with
  | slnil => exact List.Sublist.refl _
  | cons a h ih =>
    exact List.Sublist.trans ih (List.tail_sublist _)
  | cons₂ a h => exact h

theorem sublist_dropLast_of_sublist {α : Type} {s t : List α} (h : List.Sublist s t) :
    List.Sublist s.dropLast t.dropLast := by
  have h1 := sublist_tail_of_sublist h.reverse
  rw [List.tail_reverse, List.tail_reverse] at h1
  exact List.reverse_sublist.mp h1

theorem dropLast_take_succ {α : Type} (l : List α) (k : ℕ) (hk : k < l.length) :
    (l.take (k + 1)).dropLast = l.take k := by
  rw [List.dropLast_eq_take, List.length_take, List.take_take]
  congr 1
  omega

theorem headD_take_succ (l : List Point) (k : ℕ) :
    (l.take (k + 1)).headD default = l.headD default := by
  cases l with
  | nil => rfl
  | cons a t => rfl

theorem headD_eq_getD_zero (l : List Point) : l.headD default = l.getD 0 default := by
  cases l with
  | nil => rfl
  | cons a t => rfl

theorem headD_drop (l : List Point) (m : ℕ) :
    (l.drop m).headD default = l.getD m default := by
  rw [List.headD_eq_head?_getD, List.head?_drop, List.getD_eq_getElem?_getD]

theorem getLastD_take_succ (l : List Point) (k : ℕ) (hk : k < l.length) :
    (l.take (k + 1)).getLastD default = l.getD k default := by
  rw [List.getLastD_eq_getLast?, List.getLast?_eq_getElem?, List.length_take]
  have hmin : min (k + 1) l.length - 1 = k := by omega
  rw [hmin, List.getElem?_take, if_pos (by omega), List.getD_eq_getElem?_getD]

theorem getLastD_drop (l : List Point) (m : ℕ) (hm : m < l.length) :
    (l.drop m).getLastD default = l.getLastD default := by
  rw [List.getLastD_eq_getLast?, List.getLastD_eq_getLast?,
    List.getLast?_eq_getElem?, List.getLast?_eq_getElem?, List.length_drop,
    List.getElem?_drop]
  congr 2
  omega

theorem headD_append_of_ne_nil (a b : List Point) (h : a ≠ []) :
    (a ++ b).headD default = a.headD default := by
  cases a with
  | nil => exact absurd rfl h
  | cons x t => rfl

theorem getLastD_append_of_ne_nil (a b : List Point) (h : b ≠ []) :
    (a ++ b).getLastD default = b.getLastD default := by
  rw [List.getLastD_eq_getLast?, List.getLastD_eq_getLast?,
    List.getLast?_append_of_ne_nil _ h]

theorem headD_dropLast (l : List Point) (h : 2 ≤ l.length) :
    l.dropLast.headD default = l.headD default := by
  cases l with
  | nil => simp at h
  | cons a t =>
    cases t with
    | nil => simp at h
    | cons b t' => rfl

theorem getD_dropLast (l : List Point) (k : ℕ) (hk : k + 1 < l.length) :
    l.dropLast.getD k default = l.getD k default := by
  rw [List.dropLast_eq_take, List.getD_eq_getElem?_getD, List.getD_eq_getElem?_getD,
    List.getElem?_take, if_pos (by omega)]

theorem getD_take (l : List Point) (k n : ℕ) (hk : k < n) :
    (l.take n).getD k default = l.getD k default := by
  rw [List.getD_eq_getElem?_getD, List.getD_eq_getElem?_getD, List.getElem?_take,
    if_pos hk]

theorem getD_drop (l : List Point) (m k : ℕ) :
    (l.drop m).getD k default = l.getD (m + k) default := by
  rw [List.getD_eq_getElem?_getD, List.getD_eq_getElem?_getD, List.getElem?_drop]

theorem getD_append_left (a b : List Point) (k : ℕ) (hk : k < a.length) :
    (a ++ b).getD k default = a.getD k default := by
  rw [List.getD_eq_getElem?_getD, List.getD_eq_getElem?_getD,
    List.getElem?_append_left hk]

theorem getD_append_right (a b : List Point) (k : ℕ) (hk : a.length ≤ k) :
    (a ++ b).getD k default = b.getD (k - a.length) default := by
  rw [List.getD_eq_getElem?_getD, List.getD_eq_getElem?_getD,
    List.getElem?_append_right hk]

theorem getLastD_mem (l : List Point) (h : l ≠ []) : l.getLastD default ∈ l := by
  rw [List.getLastD_eq_getLast?, List.getLast?_eq_getLast l h]
  exact List.getLast_mem h

theorem pair_head_last_sublist (l : List Point) (h : 2 ≤ l.length) :
    List.Sublist [l.headD default, l.getLastD default] l := by
  cases l with
  | nil => simp at h
  | cons a t =>
    have ht : t ≠ [] := by
      cases t with
      | nil => simp at h
      | cons b t' => simp
    have h1 : (a :: t).headD default = a := rfl
    have h2 : (a :: t).getLastD default = t.getLastD default := by
      rw [List.getLastD_cons, List.getLastD_eq_getLast?, List.getLastD_eq_getLast?,
        List.getLast?_eq_getLast t ht]
      simp
    rw [h1, h2]
    exact List.Sublist.cons₂ a (List.singleton_sublist.mpr (getLastD_mem t ht))

theorem sublist_interior_getD {s t : List Point} (hst : List.Sublist s t) (k : ℕ)
    (hk1 : 1 ≤ k) (hk2 : k + 2 ≤ s.length) :
    ∃ j, 1 ≤ j ∧ j + 2 ≤ t.length ∧ s.getD k default = t.getD j default := by
  obtain ⟨f, hf⟩ := List.sublist_iff_exists_fin_orderEmbedding_get_eq.mp hst
  have hks : k < s.length := by omega
  have h0 : (0 : ℕ) < s.length := by omega
  have hlast : s.length - 1 < s.length := by omega
  refine ⟨(f ⟨k, hks⟩).val, ?_, ?_, ?_⟩
  · have hlt : (⟨0, h0⟩ : Fin s.length) < ⟨k, hks⟩ := by
      rw [Fin.mk_lt_mk]; omega
    have := f.strictMono hlt
    have hv : (f ⟨0, h0⟩).val < (f ⟨k, hks⟩).val := this
    omega
  · have hlt : (⟨k, hks⟩ : Fin s.length) < ⟨s.length - 1, hlast⟩ := by
      rw [Fin.mk_lt_mk]; omega
    have hv : (f ⟨k, hks⟩).val < (f ⟨s.length - 1, hlast⟩).val := f.strictMono hlt
    have hb : (f ⟨s.length - 1, hlast⟩).val < t.length := (f _).isLt
    omega
  · have hjt : (f ⟨k, hks⟩).val < t.length := (f _).isLt
    rw [List.getD_eq_getElem _ _ hks, List.getD_eq_getElem _ _ hjt]
    have hfk := hf ⟨k, hks⟩
    simpa [List.get_eq_getElem] using hfk

/-- Combined structural invariants of a terminating `simplifyFuel` run:
the output is a sublist of the input, non-empty with the same first and last
point when the input is non-empty, and of length at least 2 when the input
has at least 2 points. -/
theorem simplifyFuel_invariants (g : GeoPrims) :
    ∀ (fuel : ℕ) (l : List Point) (tol : ℚ) (r : List Point),
      simplifyFuel g fuel l tol = some r →
      List.Sublist r l ∧
      (l ≠ [] → r ≠ [] ∧ r.headD default = l.headD default ∧
        r.getLastD default = l.getLastD default) ∧
      (2 ≤ l.length → 2 ≤ r.length) := by
  intro fuel
  induction fuel with
  | zero => intro l tol r h; exact absurd h (by simp [simplifyFuel])
  | succ fuel ih =>
    intro l tol r h
    rw [simplifyFuel] at h
    by_cases hlen : l.length ≤ 2
    · rw [if_pos hlen] at h
      obtain rfl : l = r := by injection h
      exact ⟨List.Sublist.refl _, fun hne => ⟨hne, rfl, rfl⟩, fun h2 => h2⟩
    · rw [if_neg hlen] at h
      have hn3 : 3 ≤ l.length := by omega
      have hlne : l ≠ [] := by
        cases l with
        | nil => simp at hn3
        | cons a t => simp
      by_cases htol : tol < (maxInterior g l).2
      · rw [if_pos htol] at h
        rcases hL : simplifyFuel g fuel (l.take ((maxInterior g l).1 + 1)) tol with
          _ | L
        · rw [hL] at h; exact absurd h (by simp)
        rcases hR : simplifyFuel g fuel (l.drop (maxInterior g l).1) tol with _ | R
        · rw [hL, hR] at h; exact absurd h (by simp)
        rw [hL, hR] at h
        obtain rfl : L.dropLast ++ R = r := by injection h
        set m := (maxInterior g l).1 with hm
        have hmle : m ≤ l.length - 2 := by
          rw [hm]; unfold maxInterior; exact bestAux_fst_le _ _
        have htake_ne : l.take (m + 1) ≠ [] := by
          cases l with
          | nil => simp at hn3
          | cons a t => simp [List.take_cons]
        have hdrop_ne : l.drop m ≠ [] := by
          rw [← List.length_pos, List.length_drop]
          omega
        have htakelen : (l.take (m + 1)).length = m + 1 := by
          rw [List.length_take]
          omega
        have hdroplen : (l.drop m).length = l.length - m := List.length_drop _ _
        obtain ⟨hLsub, hLhl, hLlen⟩ := ih _ _ _ hL
        obtain ⟨hRsub, hRhl, hRlen⟩ := ih _ _ _ hR
        obtain ⟨hLne, hLhead, hLlast⟩ := hLhl htake_ne
        obtain ⟨hRne, hRhead, hRlast⟩ := hRhl hdrop_ne
        have hRlen2 : 2 ≤ R.length := hRlen (by omega)
        refine ⟨?_, ?_, ?_⟩
        · have h1 : List.Sublist L.dropLast (l.take (m + 1)).dropLast :=
            sublist_dropLast_of_sublist hLsub
          rw [dropLast_take_succ l m (by omega)] at h1
          have h2 : List.Sublist (L.dropLast ++ R) (l.take m ++ l.drop m) :=
            List.Sublist.append h1 hRsub
          rw [List.take_append_drop] at h2
          exact h2
        · intro _
          refine ⟨by simp [hRne], ?_, ?_⟩
          · by_cases hm0 : m = 0
            · have : L.dropLast = [] := by
                have : List.Sublist L (l.take 1) := by
                  rw [hm0] at hLsub
                  simpa using hLsub
                rcases List.sublist_singleton.mp (by
                  simpa [List.take_one, hlne, List.head?_eq_head,
                    Option.toList] using this) with h' | h'
                · exact absurd h' hLne
                · rw [h']; rfl
              rw [this, List.nil_append, hRhead, headD_drop, hm0,
                ← headD_eq_getD_zero]
            · have hL2 : 2 ≤ L.length := hLlen (by omega)
              rw [headD_append_of_ne_nil _ _ (by
                rw [← List.length_pos, List.length_dropLast]; omega),
                headD_dropLast L hL2, hLhead, headD_take_succ]
          · rw [getLastD_append_of_ne_nil _ _ hRne, hRlast,
              getLastD_drop l m (by omega)]
        · intro _
          have : (L.dropLast ++ R).length = L.length - 1 + R.length := by
            rw [List.length_append, List.length_dropLast]
          omega
      · rw [if_neg htol] at h
        obtain rfl : [l.headD default, l.getLastD default] = r := by injection h
        refine ⟨pair_head_last_sublist l (by omega), ?_, ?_⟩
        · intro _
          refine ⟨by simp, rfl, ?_⟩
          rw [List.getLastD_cons]
          rfl
        · intro _
          simp

/-- For a non-negative tolerance every run terminates: fuel above the list
length never runs out (in every recursive call the list shrinks). -/
theorem simplifyFuel_isSome_of_nonneg (g : GeoPrims) (tol : ℚ) (htol : 0 ≤ tol) :
    ∀ (fuel : ℕ) (l : List Point), l.length < fuel →
      ∃ r, simplifyFuel g fuel l tol = some r := by
  intro fuel
  induction fuel with
  | zero => intro l h; omega
  | succ fuel ih =>
    intro l hl
    rw [simplifyFuel]
    by_cases hlen : l.length ≤ 2
    · rw [if_pos hlen]; exact ⟨l, rfl⟩
    · rw [if_neg hlen]
      by_cases htol2 : tol < (maxInterior g l).2
      · rw [if_pos htol2]
        have hm1 : 1 ≤ (maxInterior g l).1 := by
          rcases bestAux_spec (dOf g l) (l.length - 2) with ⟨_, h0⟩ | ⟨h1, _, _, _, _⟩
          · exfalso
            have : (maxInterior g l).2 = 0 := h0
            rw [this] at htol2
            exact absurd htol2 (not_lt.mpr htol)
          · exact h1
        have hmle : (maxInterior g l).1 ≤ l.length - 2 := bestAux_fst_le _ _
        obtain ⟨L, hL⟩ := ih (l.take ((maxInterior g l).1 + 1)) (by
          rw [List.length_take]; omega)
        obtain ⟨R, hR⟩ := ih (l.drop (maxInterior g l).1) (by
          rw [List.length_drop]; omega)
        rw [hL, hR]
        exact ⟨L.dropLast ++ R, rfl⟩
      · rw [if_neg htol2]
        exact ⟨_, rfl⟩

/-- Fuel monotonicity: a run that succeeds with some fuel returns the same
result with any larger fuel. -/
theorem simplifyFuel_mono (g : GeoPrims) :
    ∀ (f1 f2 : ℕ) (l : List Point) (tol : ℚ) (r : List Point),
      simplifyFuel g f1 l tol = some r → f1 ≤ f2 →
      simplifyFuel g f2 l tol = some r := by
  intro f1
  induction f1 with
  | zero => intro f2 l tol r h; exact absurd h (by simp [simplifyFuel])
  | succ f1 ih =>
    intro f2 l tol r h hle
    rcases f2 with _ | f2
    · omega
    rw [simplifyFuel] at h
    rw [simplifyFuel]
    by_cases hlen : l.length ≤ 2
    · rw [if_pos hlen] at h ⊢; exact h
    · rw [if_neg hlen] at h ⊢
      by_cases htol : tol < (maxInterior g l).2
      · rw [if_pos htol] at h ⊢
        rcases hL : simplifyFuel g f1 (l.take ((maxInterior g l).1 + 1)) tol with
          _ | L
        · rw [hL] at h; exact absurd h (by simp)
        rcases hR : simplifyFuel g f1 (l.drop (maxInterior g l).1) tol with _ | R
        · rw [hL, hR] at h; exact absurd h (by simp)
        rw [hL, hR] at h
        rw [ih f2 _ _ _ hL (by omega), ih f2 _ _ _ hR (by omega)]
        exact h
      · rw [if_neg htol] at h ⊢; exact h

theorem getLastD_eq_getLast (l : List Point) (h : l ≠ []) :
    l.getLastD default = l.getLast h := by
  rw [List.getLastD_eq_getLast?, List.getLast?_eq_getLast l h]
  rfl

/-- The key step for idempotence: a successful `simplifyFuel` run re-runs to
itself (with its own fuel budget). -/
theorem simplifyFuel_idem (g : GeoPrims) :
    ∀ (fuel : ℕ) (l : List Point) (tol : ℚ) (Q : List Point),
      simplifyFuel g fuel l tol = some Q →
      simplifyFuel g (Q.length + 1) Q tol = some Q := by
  intro fuel
  induction fuel with
  | zero => intro l tol Q h; exact absurd h (by simp [simplifyFuel])
  | succ fuel ih =>
    intro l tol Q h
    rw [simplifyFuel] at h
    by_cases hlen : l.length ≤ 2
    · rw [if_pos hlen] at h
      obtain rfl : l = Q := by injection h
      rw [simplifyFuel, if_pos hlen]
    · rw [if_neg hlen] at h
      have hn3 : 3 ≤ l.length := by omega
      have hlne : l ≠ [] := by
        cases l with
        | nil => simp at hn3
        | cons a t => simp
      by_cases htol : tol < (maxInterior g l).2
      · rw [if_pos htol] at h
        rcases hL : simplifyFuel g fuel (l.take ((maxInterior g l).1 + 1)) tol with
          _ | L
        · rw [hL] at h; exact absurd h (by simp)
        rcases hR : simplifyFuel g fuel (l.drop (maxInterior g l).1) tol with _ | R
        · rw [hL, hR] at h; exact absurd h (by simp)
        rw [hL, hR] at h
        obtain rfl : L.dropLast ++ R = Q := by injection h
        set m := (maxInterior g l).1 with hm
        have hmle : m ≤ l.length - 2 := by
          rw [hm]; unfold maxInterior; exact bestAux_fst_le _ _
        have htake_ne : l.take (m + 1) ≠ [] := by
          cases l with
          | nil => simp at hn3
          | cons a t => simp [List.take_cons]
        have hdrop_ne : l.drop m ≠ [] := by
          rw [← List.length_pos, List.length_drop]
          omega
        have htakelen : (l.take (m + 1)).length = m + 1 := by
          rw [List.length_take]; omega
        have hdroplen : (l.drop m).length = l.length - m := List.length_drop _ _
        obtain ⟨hLsub, hLhl, hLlen⟩ := simplifyFuel_invariants g _ _ _ _ hL
        obtain ⟨hRsub, hRhl, hRlen⟩ := simplifyFuel_invariants g _ _ _ _ hR
        obtain ⟨hLne, hLhead, hLlast⟩ := hLhl htake_ne
        obtain ⟨hRne, hRhead, hRlast⟩ := hRhl hdrop_ne
        have hRlen2 : 2 ≤ R.length := hRlen (by omega)
        rcases Nat.eq_zero_or_pos m with hm0 | hm1
        · -- the degenerate pivot: the left half is a single point and the
          -- right recursion re-runs the whole list
          have hs : List.Sublist L (l.take 1) := by
            rw [hm0] at hLsub
            simpa using hLsub
          have ht1 : l.take 1 = [l.head hlne] := by
            rw [List.take_one, List.head?_eq_head hlne]
            rfl
          rw [ht1] at hs
          rcases List.sublist_singleton.mp hs with h' | h'
          · exact absurd h' hLne
          have hnil : L.dropLast = [] := by rw [h']; rfl
          rw [hm0] at hR
          rw [List.drop_zero] at hR
          rw [hnil, List.nil_append] at *
          exact ih _ _ _ hR
        · -- the genuine pivot: the re-run scans to the same maximum and
          -- splits into exactly the same halves
          have hL2 : 2 ≤ L.length := hLlen (by omega)
          have hQlen : (L.dropLast ++ R).length = L.length - 1 + R.length := by
            rw [List.length_append, List.length_dropLast]
          have hdlne : L.dropLast ≠ [] := by
            rw [← List.length_pos, List.length_dropLast]
            omega
          have hQhead : (L.dropLast ++ R).headD default = l.headD default := by
            rw [headD_append_of_ne_nil _ _ hdlne, headD_dropLast L hL2, hLhead,
              headD_take_succ]
          have hQlast : (L.dropLast ++ R).getLastD default = l.getLastD default := by
            rw [getLastD_append_of_ne_nil _ _ hRne, hRlast,
              getLastD_drop l m (by omega)]
          have hLlast' : L.getLastD default = l.getD m default := by
            rw [hLlast, getLastD_take_succ l m (by omega)]
          have hRhead' : R.headD default = l.getD m default := by
            rw [hRhead, headD_drop]
          have hdQ : ∀ k, dOf g (L.dropLast ++ R) k = perpendicularDistance g
              ((L.dropLast ++ R).getD k default) (l.headD default)
              (l.getLastD default) := by
            intro k
            unfold dOf
            rw [hQhead, hQlast]
          -- the bestAux characterization of the original scan
          have hspec := bestAux_spec (dOf g l) (l.length - 2)
          have hmfst : (bestAux (dOf g l) (l.length - 2)).1 = m := by rw [hm]; rfl
          have hmsnd : (bestAux (dOf g l) (l.length - 2)).2 = (maxInterior g l).2 := rfl
          rcases hspec with ⟨hf0, _⟩ | ⟨_, _, hs3, hs4, hs5⟩
          · rw [hmfst] at hf0; omega
          rw [hmfst, hmsnd] at hs3 hs5
          rw [hmsnd] at hs4
          -- interior distances of the re-run
          have hq_lt : ∀ k, k < L.length - 1 →
              (L.dropLast ++ R).getD k default = L.getD k default := by
            intro k hk
            rw [getD_append_left _ _ _ (by rw [List.length_dropLast]; omega),
              getD_dropLast L k (by omega)]
          have hq_at : (L.dropLast ++ R).getD (L.length - 1) default =
              l.getD m default := by
            rw [getD_append_right _ _ _ (by rw [List.length_dropLast])]
            rw [List.length_dropLast, Nat.sub_self, ← headD_eq_getD_zero, hRhead']
          have hq_gt : ∀ k, L.length - 1 < k →
              (L.dropLast ++ R).getD k default = R.getD (k - (L.length - 1)) default := by
            intro k hk
            rw [getD_append_right _ _ _ (by rw [List.length_dropLast]; omega),
              List.length_dropLast]
          have hlt_pivot : ∀ k, 1 ≤ k → k < L.length - 1 →
              dOf g (L.dropLast ++ R) k < (maxInterior g l).2 := by
            intro k h1 h2
            rw [hdQ k, hq_lt k h2]
            obtain ⟨j, hj1, hj2, hjeq⟩ := sublist_interior_getD hLsub k h1 (by omega)
            rw [htakelen] at hj2
            rw [hjeq, getD_take l j (m + 1) (by omega)]
            exact hs5 j hj1 (by omega)
          have hpivot_val : dOf g (L.dropLast ++ R) (L.length - 1) =
              (maxInterior g l).2 := by
            rw [hdQ, hq_at]
            exact hs3
          have hle_after : ∀ k, L.length - 1 < k →
              k + 2 ≤ (L.dropLast ++ R).length →
              dOf g (L.dropLast ++ R) k ≤ (maxInterior g l).2 := by
            intro k hk hk2
            rw [hdQ k, hq_gt k hk]
            rw [hQlen] at hk2
            obtain ⟨j, hj1, hj2, hjeq⟩ := sublist_interior_getD hRsub
              (k - (L.length - 1)) (by omega) (by omega)
            rw [hdroplen] at hj2
            rw [hjeq, getD_drop l m j]
            exact bestAux_le_snd (dOf g l) (l.length - 2) (m + j) (by omega) (by omega)
          have hQmax : maxInterior g (L.dropLast ++ R) =
              (L.length - 1, (maxInterior g l).2) := by
            unfold maxInterior
            have := bestAux_unique (dOf g (L.dropLast ++ R)) (L.length - 1)
              (by omega) (by rw [hpivot_val]; exact hs4)
              (fun i hi1 hi2 => by
                rw [hpivot_val]
                exact hlt_pivot i hi1 hi2)
              ((L.dropLast ++ R).length - 2) (by omega)
              (fun i hi1 hi2 => by
                rw [hpivot_val]
                exact hle_after i hi1 (by omega))
            rw [this, hpivot_val, hmsnd]
          -- now unfold the re-run
          rw [simplifyFuel, if_neg (by omega)]
          simp only [hQmax]
          rw [if_pos htol]
          have hsucc : L.length - 1 + 1 = L.length := by omega
          have htake_eq : (L.dropLast ++ R).take (L.length - 1 + 1) = L := by
            rw [hsucc, List.take_append_eq_append_take,
              List.take_of_length_le (by rw [List.length_dropLast]; omega),
              List.length_dropLast]
            have h1 : L.length - (L.length - 1) = 1 := by omega
            rw [h1]
            have htake1 : R.take 1 = [R.headD default] := by
              cases R with
              | nil => exact absurd rfl hRne
              | cons a t => rfl
            rw [htake1, hRhead', ← hLlast', getLastD_eq_getLast L hLne,
              List.dropLast_append_getLast hLne]
          have hdrop_eq : (L.dropLast ++ R).drop (L.length - 1) = R := by
            have h1 : (L.dropLast).length = L.length - 1 := List.length_dropLast L
            rw [← h1, List.drop_left]
          rw [htake_eq, hdrop_eq]
          have hLrun : simplifyFuel g (L.dropLast ++ R).length L tol = some L := by
            refine simplifyFuel_mono g (L.length + 1) _ _ _ _ (ih _ _ _ hL) ?_
            omega
          have hRrun : simplifyFuel g (L.dropLast ++ R).length R tol = some R := by
            refine simplifyFuel_mono g (R.length + 1) _ _ _ _ (ih _ _ _ hR) ?_
            omega
          rw [hLrun, hRrun]
      · rw [if_neg htol] at h
        obtain rfl : [l.headD default, l.getLastD default] = Q := by injection h
        rw [simplifyFuel, if_pos (by simp)]

/-- C6: Douglas-Peucker simplification is idempotent: for every polyline and
every tolerance, re-simplifying the output of `simplifyPolyline` with the
same tolerance returns it unchanged.  Diverging runs (`none`, possible only
for a negative tolerance, where the source recursion overflows the stack)
agree on both sides, so the equation is stated through `Option.bind`. -/
theorem simplifyPolyline_idempotent (g : GeoPrims) (points : List Point)
    (tolerance : ℚ) :
    (simplifyPolyline g points tolerance).bind
      (fun q => simplifyPolyline g q tolerance) =
      simplifyPolyline g points tolerance := by
  cases h : simplifyPolyline g points tolerance with
  | none => rfl
  | some Q =>
    show simplifyPolyline g Q tolerance = some Q
    exact simplifyFuel_idem g (points.length + 1) points tolerance Q h

/-! ### Pipeline structure: group sizes (C2) -/

theorem rawSegStep_nil (allow : Bool) (a : List (List MatchingPoint))
    (x : MatchingPoint) : rawSegStep allow (a, []) x = (a, [x]) := rfl

theorem rawSegStep_cons (allow : Bool) (a : List (List MatchingPoint))
    (y : MatchingPoint) (ys : List MatchingPoint) (x : MatchingPoint) :
    rawSegStep allow (a, y :: ys) x =
      if isConsecutive allow ((y :: ys).getLastD default) x then (a, (y :: ys) ++ [x])
      else if MIN_SEGMENT_POINTS ≤ (y :: ys).length then (a ++ [y :: ys], [x])
      else (a, [x]) := rfl

/-- Case analysis for one `groupIntoSegments` loop iteration: extend the run,
cut and keep it, or cut and drop it. -/
theorem rawSegStep_shape (allow : Bool) (a : List (List MatchingPoint))
    (c : List MatchingPoint) (x : MatchingPoint) :
    (c ≠ [] ∧ isConsecutive allow (c.getLastD default) x = true ∧
      rawSegStep allow (a, c) x = (a, c ++ [x])) ∨
    (MIN_SEGMENT_POINTS ≤ c.length ∧ rawSegStep allow (a, c) x = (a ++ [c], [x])) ∨
    rawSegStep allow (a, c) x = (a, [x]) := by
  cases c with
  | nil => exact Or.inr (Or.inr (rawSegStep_nil allow a x))
  | cons y ys =>
    rw [rawSegStep_cons]
    split_ifs with h1 h2
    · exact Or.inl ⟨by simp, h1, rfl⟩
    · exact Or.inr (Or.inl ⟨h2, rfl⟩)
    · exact Or.inr (Or.inr rfl)

/-- Case analysis for one `mergeNearbySegments` iteration. -/
theorem mergeNearbyStep_shape (g : GeoPrims) (a : List (List MatchingPoint))
    (c x : List MatchingPoint) :
    mergeNearbyStep g (a, c) x = (a, c ++ x) ∨
    (MIN_SEGMENT_POINTS ≤ c.length ∧ mergeNearbyStep g (a, c) x = (a ++ [c], x)) ∨
    mergeNearbyStep g (a, c) x = (a, x) := by
  unfold mergeNearbyStep
  split_ifs with h1 h2
  · exact Or.inl rfl
  · exact Or.inr (Or.inl ⟨h2, rfl⟩)
  · exact Or.inr (Or.inr rfl)

/-- Case analysis for one `mergeOverlappingSegments` iteration. -/
theorem mergeOverlapStep_shape (g : GeoPrims) (skip : Bool)
    (a : List (List MatchingPoint)) (c x : List MatchingPoint) :
    mergeOverlapStep g skip (a, c) x = (a, mergeSegmentPoints c x) ∨
    (MIN_SEGMENT_POINTS ≤ c.length ∧ mergeOverlapStep g skip (a, c) x = (a ++ [c], x)) ∨
    mergeOverlapStep g skip (a, c) x = (a, x) := by
  unfold mergeOverlapStep
  split_ifs with h1 h2
  · exact Or.inl rfl
  · exact Or.inr (Or.inl ⟨h2, rfl⟩)
  · exact Or.inr (Or.inr rfl)

theorem finalizeGroups_lengths (st : List (List MatchingPoint) × List MatchingPoint)
    (h : ∀ s ∈ st.1, MIN_SEGMENT_POINTS ≤ s.length) :
    ∀ s ∈ finalizeGroups st, MIN_SEGMENT_POINTS ≤ s.length := by
  unfold finalizeGroups
  split
  · next hg =>
    intro s hs
    rcases List.mem_append.mp hs with hs | hs
    · exact h s hs
    · rw [List.mem_singleton.mp hs]
      exact hg
  · exact h

theorem rawSeg_foldl_lengths (allow : Bool) :
    ∀ (mps : List MatchingPoint) (a : List (List MatchingPoint))
      (c : List MatchingPoint),
      (∀ s ∈ a, MIN_SEGMENT_POINTS ≤ s.length) →
      ∀ s ∈ (mps.foldl (rawSegStep allow) (a, c)).1, MIN_SEGMENT_POINTS ≤ s.length := by
  intro mps
  induction mps with
  | nil => intro a c h; exact h
  | cons x mps ih =>
    intro a c h
    rw [List.foldl_cons]
    have hstep : ∀ s ∈ (rawSegStep allow (a, c) x).1, MIN_SEGMENT_POINTS ≤ s.length := by
      rcases rawSegStep_shape allow a c x with ⟨-, -, heq⟩ | ⟨hg, heq⟩ | heq
      · rw [heq]; exact h
      · rw [heq]
        intro s hs
        rcases List.mem_append.mp hs with hs | hs
        · exact h s hs
        · rw [List.mem_singleton.mp hs]; exact hg
      · rw [heq]; exact h
    have := ih (rawSegStep allow (a, c) x).1 (rawSegStep allow (a, c) x).2 hstep
    simpa using this

theorem buildRawSegments_lengths (allow : Bool) (mps : List MatchingPoint) :
    ∀ s ∈ buildRawSegments allow mps, MIN_SEGMENT_POINTS ≤ s.length := by
  unfold buildRawSegments
  exact finalizeGroups_lengths _ (rawSeg_foldl_lengths allow mps [] [] (by simp))

theorem mergeNearby_foldl_lengths (g : GeoPrims) :
    ∀ (segs : List (List MatchingPoint)) (a : List (List MatchingPoint))
      (c : List MatchingPoint),
      (∀ s ∈ a, MIN_SEGMENT_POINTS ≤ s.length) →
      ∀ s ∈ (segs.foldl (mergeNearbyStep g) (a, c)).1, MIN_SEGMENT_POINTS ≤ s.length := by
  intro segs
  induction segs with
  | nil => intro a c h; exact h
  | cons x segs ih =>
    intro a c h
    rw [List.foldl_cons]
    have hstep : ∀ s ∈ (mergeNearbyStep g (a, c) x).1, MIN_SEGMENT_POINTS ≤ s.length := by
      rcases mergeNearbyStep_shape g a c x with heq | ⟨hg, heq⟩ | heq
      · rw [heq]; exact h
      · rw [heq]
        intro s hs
        rcases List.mem_append.mp hs with hs | hs
        · exact h s hs
        · rw [List.mem_singleton.mp hs]; exact hg
      · rw [heq]; exact h
    have := ih (mergeNearbyStep g (a, c) x).1 (mergeNearbyStep g (a, c) x).2 hstep
    simpa using this

theorem mergeNearbySegments_lengths (g : GeoPrims) (segments : List (List MatchingPoint))
    (hin : ∀ s ∈ segments, MIN_SEGMENT_POINTS ≤ s.length) :
    ∀ s ∈ mergeNearbySegments g segments, MIN_SEGMENT_POINTS ≤ s.length := by
  unfold mergeNearbySegments
  split
  · exact hin
  · split
    · intro s hs; simp at hs
    · next s0 rest heq =>
      exact finalizeGroups_lengths _ (mergeNearby_foldl_lengths g rest [] s0 (by simp))

theorem mergeOverlap_foldl_lengths (g : GeoPrims) (skip : Bool) :
    ∀ (segs : List (List MatchingPoint)) (a : List (List MatchingPoint))
      (c : List MatchingPoint),
      (∀ s ∈ a, MIN_SEGMENT_POINTS ≤ s.length) →
      ∀ s ∈ (segs.foldl (mergeOverlapStep g skip) (a, c)).1,
        MIN_SEGMENT_POINTS ≤ s.length := by
  intro segs
  induction segs with
  | nil => intro a c h; exact h
  | cons x segs ih =>
    intro a c h
    rw [List.foldl_cons]
    have hstep : ∀ s ∈ (mergeOverlapStep g skip (a, c) x).1,
        MIN_SEGMENT_POINTS ≤ s.length := by
      rcases mergeOverlapStep_shape g skip a c x with heq | ⟨hg, heq⟩ | heq
      · rw [heq]; exact h
      · rw [heq]
        intro s hs
        rcases List.mem_append.mp hs with hs | hs
        · exact h s hs
        · rw [List.mem_singleton.mp hs]; exact hg
      · rw [heq]; exact h
    have := ih (mergeOverlapStep g skip (a, c) x).1 (mergeOverlapStep g skip (a, c) x).2
      hstep
    simpa using this

theorem mergeOverlappingSegments_lengths (g : GeoPrims)
    (segments : List (List MatchingPoint)) (algorithm : MatchingAlgorithm)
    (hin : ∀ s ∈ segments, MIN_SEGMENT_POINTS ≤ s.length) :
    ∀ s ∈ mergeOverlappingSegments g segments algorithm,
      MIN_SEGMENT_POINTS ≤ s.length := by
  unfold mergeOverlappingSegments
  split
  · exact hin
  · split
    · intro s hs; simp at hs
    · next s0 rest heq =>
      exact finalizeGroups_lengths _ (mergeOverlap_foldl_lengths g _ rest [] s0 (by simp))

/-! ### C2: invariants of every returned segment -/

theorem smoothPolyline_length (points : List Point) (w : ℤ) :
    (smoothPolyline points w).length = points.length := by
  unfold smoothPolyline
  split
  · rfl
  · simp

theorem simplifyTotal_two_le_length (g : GeoPrims) (points : List Point) (tol : ℚ)
    (htol : 0 ≤ tol) (h2 : 2 ≤ points.length) :
    2 ≤ (simplifyTotal g points tol).length := by
  unfold simplifyTotal simplifyPolyline
  obtain ⟨r, hr⟩ :=
    simplifyFuel_isSome_of_nonneg g tol htol (points.length + 1) points (by omega)
  rw [hr]
  exact (simplifyFuel_invariants g _ _ _ _ hr).2.2 h2

theorem getLastD_mem_mp (l : List MatchingPoint) (h : l ≠ []) :
    l.getLastD default ∈ l := by
  rw [List.getLastD_eq_getLast?, List.getLast?_eq_getLast l h]
  exact List.getLast_mem h

theorem headD_le_getLastD_of_sorted (f : MatchingPoint → ℕ) (l : List MatchingPoint)
    (hne : l ≠ []) (hp : List.Pairwise (fun a b => f a ≤ f b) l) :
    f (l.headD default) ≤ f (l.getLastD default) := by
  cases l with
  | nil => exact absurd rfl hne
  | cons x xs =>
    simp only [List.headD_cons]
    rcases List.mem_cons.mp (getLastD_mem_mp (x :: xs) (by simp)) with h | h
    · rw [h]
    · exact (List.pairwise_cons.mp hp).1 _ h

theorem mergeSort_key_sorted (f : MatchingPoint → ℕ) (l : List MatchingPoint) :
    List.Pairwise (fun a b => f a ≤ f b)
      (l.mergeSort (fun a b => decide (f a ≤ f b))) := by
  have hs := @List.sorted_mergeSort MatchingPoint
    (fun a b => decide (f a ≤ f b))
    (fun a b c h1 h2 => by
      simp only [decide_eq_true_eq] at h1 h2 ⊢
      exact le_trans h1 h2)
    (fun a b => by
      simp only [Bool.or_eq_true, decide_eq_true_eq]
      exact le_total (f a) (f b))
    l
  exact hs.imp (fun h => of_decide_eq_true h)

theorem createSegmentRawPoints_two_le (sp : List MatchingPoint) (A : GpxTrack)
    (h : 2 ≤ sp.length) : 2 ≤ (createSegmentRawPoints sp A).length := by
  simp only [createSegmentRawPoints]
  split
  · next hlt =>
    simp only [List.length_append, List.length_map, List.length_mergeSort]
    omega
  · next hge => omega

theorem createSegment_invariants (g : GeoPrims) (sp : List MatchingPoint)
    (A B : GpxTrack) (hsp : 2 ≤ sp.length) :
    (createSegment g sp A B).startIndexA ≤ (createSegment g sp A B).endIndexA ∧
    (createSegment g sp A B).startIndexB ≤ (createSegment g sp A B).endIndexB ∧
    2 ≤ (createSegment g sp A B).points.length := by
  have hneA : sp.mergeSort (fun a b => decide (a.indexA ≤ b.indexA)) ≠ [] := by
    rw [← List.length_pos, List.length_mergeSort]
    omega
  have hneB : sp.mergeSort (fun a b => decide (a.indexB ≤ b.indexB)) ≠ [] := by
    rw [← List.length_pos, List.length_mergeSort]
    omega
  refine ⟨?_, ?_, ?_⟩
  · show ((sp.mergeSort (fun a b => decide (a.indexA ≤ b.indexA))).headD default).indexA ≤
      ((sp.mergeSort (fun a b => decide (a.indexA ≤ b.indexA))).getLastD default).indexA
    exact headD_le_getLastD_of_sorted (fun p => p.indexA) _ hneA
      (mergeSort_key_sorted (fun p => p.indexA) sp)
  · show ((sp.mergeSort (fun a b => decide (a.indexB ≤ b.indexB))).headD default).indexB ≤
      ((sp.mergeSort (fun a b => decide (a.indexB ≤ b.indexB))).getLastD default).indexB
    exact headD_le_getLastD_of_sorted (fun p => p.indexB) _ hneB
      (mergeSort_key_sorted (fun p => p.indexB) sp)
  · show 2 ≤ (simplifyTotal g (smoothPolyline (createSegmentRawPoints sp A) 5)
      (3 / 200000)).length
    apply simplifyTotal_two_le_length g _ _ (by norm_num)
    rw [smoothPolyline_length]
    exact createSegmentRawPoints_two_le sp A hsp

theorem groupIntoSegments_invariants (g : GeoPrims) (mps : List MatchingPoint)
    (A B : GpxTrack) (algorithm : MatchingAlgorithm) (seg : MatchedSegment)
    (hmem : seg ∈ groupIntoSegments g mps A B algorithm) :
    seg.startIndexA ≤ seg.endIndexA ∧ seg.startIndexB ≤ seg.endIndexB ∧
      MIN_SEGMENT_DISTANCE_KM ≤ seg.distance ∧ 2 ≤ seg.points.length := by
  unfold groupIntoSegments at hmem
  by_cases hlen : mps.length < MIN_SEGMENT_POINTS
  · rw [if_pos hlen] at hmem
    simp at hmem
  · rw [if_neg hlen] at hmem
    rw [List.mem_filter] at hmem
    obtain ⟨hmem, hdist⟩ := hmem
    rw [List.mem_map] at hmem
    obtain ⟨sp, hsp, rfl⟩ := hmem
    have h8 : MIN_SEGMENT_POINTS ≤ sp.length :=
      mergeOverlappingSegments_lengths g _ algorithm
        (mergeNearbySegments_lengths g _ (buildRawSegments_lengths _ _)) sp hsp
    obtain ⟨h1, h2, h3⟩ := createSegment_invariants g sp A B
      (by unfold MIN_SEGMENT_POINTS at h8; omega)
    exact ⟨h1, h2, of_decide_eq_true hdist, h3⟩

theorem findMatchesBetweenTracks_invariants (g : GeoPrims) (A B : GpxTrack)
    (deltaMeters : ℚ) (algorithm : MatchingAlgorithm) (seg : MatchedSegment)
    (hmem : seg ∈ findMatchesBetweenTracks g A B deltaMeters algorithm) :
    seg.startIndexA ≤ seg.endIndexA ∧ seg.startIndexB ≤ seg.endIndexB ∧
      MIN_SEGMENT_DISTANCE_KM ≤ seg.distance ∧ 2 ≤ seg.points.length := by
  unfold findMatchesBetweenTracks at hmem
  by_cases hlen : A.elevation.length < MIN_SEGMENT_POINTS ∨
      B.elevation.length < MIN_SEGMENT_POINTS
  · rw [if_pos hlen] at hmem
    simp at hmem
  · rw [if_neg hlen] at hmem
    exact groupIntoSegments_invariants g _ A B algorithm seg hmem

/-- C2: every `MatchedSegment` returned by `findMatchingSegments` has
`startIndexA ≤ endIndexA`, `startIndexB ≤ endIndexB`, distance at least
`MIN_SEGMENT_DISTANCE_KM` and at least two points, for every primitive
instantiation, track list, delta and algorithm. -/
theorem findMatchingSegments_segment_invariants (g : GeoPrims)
    (tracks : List GpxTrack) (deltaMeters : ℚ) (algorithm : MatchingAlgorithm)
    (seg : MatchedSegment)
    (hmem : seg ∈ findMatchingSegments g tracks deltaMeters algorithm) :
    seg.startIndexA ≤ seg.endIndexA ∧ seg.startIndexB ≤ seg.endIndexB ∧
      MIN_SEGMENT_DISTANCE_KM ≤ seg.distance ∧ 2 ≤ seg.points.length := by
  unfold findMatchingSegments at hmem
  by_cases hv : (tracks.filter (fun t => t.visible)).length < 2
  · rw [if_pos hv] at hmem
    simp at hmem
  · rw [if_neg hv] at hmem
    rw [List.mem_mergeSort, List.mem_flatMap] at hmem
    obtain ⟨ab, -, hmem⟩ := hmem
    exact findMatchesBetweenTracks_invariants g ab.1 ab.2 deltaMeters algorithm seg hmem

/-- Witness for C2 on a concrete two-track run that returns a segment. -/
theorem findMatchingSegments_segment_invariants_witness :
    ((findMatchingSegments geoC [lineTrack ['a'] ['a'], lineTrack ['b'] ['b']] 50
        MatchingAlgorithm.standard).headD default ∈
      findMatchingSegments geoC [lineTrack ['a'] ['a'], lineTrack ['b'] ['b']] 50
        MatchingAlgorithm.standard) ∧
    (((findMatchingSegments geoC [lineTrack ['a'] ['a'], lineTrack ['b'] ['b']] 50
        MatchingAlgorithm.standard).headD default).startIndexA ≤
      ((findMatchingSegments geoC [lineTrack ['a'] ['a'], lineTrack ['b'] ['b']] 50
        MatchingAlgorithm.standard).headD default).endIndexA ∧
      ((findMatchingSegments geoC [lineTrack ['a'] ['a'], lineTrack ['b'] ['b']] 50
        MatchingAlgorithm.standard).headD default).startIndexB ≤
      ((findMatchingSegments geoC [lineTrack ['a'] ['a'], lineTrack ['b'] ['b']] 50
        MatchingAlgorithm.standard).headD default).endIndexB ∧
      MIN_SEGMENT_DISTANCE_KM ≤
      ((findMatchingSegments geoC [lineTrack ['a'] ['a'], lineTrack ['b'] ['b']] 50
        MatchingAlgorithm.standard).headD default).distance ∧
      2 ≤ ((findMatchingSegments geoC [lineTrack ['a'] ['a'], lineTrack ['b'] ['b']] 50
        MatchingAlgorithm.standard).headD default).points.length) :=
  ⟨by decide,
    findMatchingSegments_segment_invariants geoC
      [lineTrack ['a'] ['a'], lineTrack ['b'] ['b']] 50 MatchingAlgorithm.standard
      ((findMatchingSegments geoC [lineTrack ['a'] ['a'], lineTrack ['b'] ['b']] 50
        MatchingAlgorithm.standard).headD default) (by decide)⟩

/-! ### C10: distinctness of segment ids within one track pair

Matching points are produced in strictly increasing `indexA` order; every
grouping and merging stage keeps the flattened point sequence a sublist of
the original one, so final groups occupy disjoint, increasing `indexA`
ranges, and their first points (which name the segments) are distinct. -/

theorem headD_mem_mp (l : List MatchingPoint) (h : l ≠ []) : l.headD default ∈ l := by
  cases l with
  | nil => exact absurd rfl h
  | cons x xs => simp

theorem ne_nil_of_min_length {s : List MatchingPoint}
    (h : MIN_SEGMENT_POINTS ≤ s.length) : s ≠ [] := by
  intro he
  subst he
  unfold MIN_SEGMENT_POINTS at h
  simp at h

theorem candidateAt_indexA (g : GeoPrims) (pA pB : List Point) (δ : ℚ) (rate : ℕ)
    (cb : Bool) (i : ℕ) (mp : MatchingPoint)
    (h : candidateAt g pA pB δ rate cb i = some mp) : mp.indexA = i := by
  unfold candidateAt at h
  rcases hn : findNearestPointWithinDelta g pB δ (pA.getD i default) with _ | nearest
  · rw [hn] at h
    exact absurd h (by simp)
  · simp only [hn] at h
    split at h
    · split at h
      · injection h with h'
        rw [← h']
      · exact absurd h (by simp)
    · injection h with h'
      rw [← h']

theorem matchCandidates_pairwise (g : GeoPrims) (pA pB : List Point) (δ : ℚ)
    (rate : ℕ) (cb : Bool) :
    (matchCandidates g pA pB δ rate cb).Pairwise
      (fun p q => p.indexA < q.indexA) := by
  unfold matchCandidates
  rw [List.pairwise_filterMap]
  unfold sampleIndices
  refine (List.Pairwise.filter _ (List.pairwise_lt_range pA.length)).imp ?_
  intro i j hij p hp q hq
  rw [Option.mem_def] at hp hq
  rw [candidateAt_indexA g pA pB δ rate cb i p hp,
    candidateAt_indexA g pA pB δ rate cb j q hq]
  exact hij

theorem rawSeg_foldl_flatten (allow : Bool) :
    ∀ (mps : List MatchingPoint) (a : List (List MatchingPoint))
      (c : List MatchingPoint),
      List.Sublist
        ((mps.foldl (rawSegStep allow) (a, c)).1.flatten ++
          (mps.foldl (rawSegStep allow) (a, c)).2)
        (a.flatten ++ c ++ mps) := by
  intro mps
  induction mps with
  | nil =>
    intro a c
    rw [List.foldl_nil, List.append_nil]
  | cons x mps ih =>
    intro a c
    rw [List.foldl_cons]
    rcases rawSegStep_shape allow a c x with ⟨-, -, heq⟩ | ⟨-, heq⟩ | heq
    · rw [heq]
      refine (ih a (c ++ [x])).trans ?_
      have heq2 : a.flatten ++ (c ++ [x]) ++ mps = a.flatten ++ c ++ (x :: mps) := by
        simp
      rw [heq2]
    · rw [heq]
      refine (ih (a ++ [c]) [x]).trans ?_
      have heq2 : (a ++ [c]).flatten ++ [x] ++ mps = a.flatten ++ c ++ (x :: mps) := by
        simp
      rw [heq2]
    · rw [heq]
      refine (ih a [x]).trans ?_
      have h1 : List.Sublist ([x] ++ mps) (c ++ ([x] ++ mps)) :=
        List.sublist_append_right c _
      have h2 := h1.append_left a.flatten
      simpa using h2

theorem finalizeGroups_flatten_sublist
    (st : List (List MatchingPoint) × List MatchingPoint) :
    List.Sublist (finalizeGroups st).flatten (st.1.flatten ++ st.2) := by
  unfold finalizeGroups
  split
  · have heq : (st.1 ++ [st.2]).flatten = st.1.flatten ++ st.2 := by simp
    rw [heq]
  · exact List.sublist_append_left _ _

theorem buildRawSegments_flatten_sublist (allow : Bool) (mps : List MatchingPoint) :
    List.Sublist (buildRawSegments allow mps).flatten mps := by
  unfold buildRawSegments
  refine (finalizeGroups_flatten_sublist _).trans ?_
  have := rawSeg_foldl_flatten allow mps [] []
  simpa using this

theorem mergeNearby_foldl_flatten (g : GeoPrims) :
    ∀ (xs : List (List MatchingPoint)) (a : List (List MatchingPoint))
      (c : List MatchingPoint),
      List.Sublist
        ((xs.foldl (mergeNearbyStep g) (a, c)).1.flatten ++
          (xs.foldl (mergeNearbyStep g) (a, c)).2)
        (a.flatten ++ c ++ xs.flatten) := by
  intro xs
  induction xs with
  | nil =>
    intro a c
    rw [List.foldl_nil]
    have heq2 : a.flatten ++ c ++ List.flatten [] = a.flatten ++ c := by simp
    rw [heq2]
  | cons x xs ih =>
    intro a c
    rw [List.foldl_cons]
    rcases mergeNearbyStep_shape g a c x with heq | ⟨-, heq⟩ | heq
    · rw [heq]
      refine (ih a (c ++ x)).trans ?_
      have heq2 : a.flatten ++ (c ++ x) ++ xs.flatten =
          a.flatten ++ c ++ (x :: xs).flatten := by simp
      rw [heq2]
    · rw [heq]
      refine (ih (a ++ [c]) x).trans ?_
      have heq2 : (a ++ [c]).flatten ++ x ++ xs.flatten =
          a.flatten ++ c ++ (x :: xs).flatten := by simp
      rw [heq2]
    · rw [heq]
      refine (ih a x).trans ?_
      have h1 : List.Sublist (x ++ xs.flatten) (c ++ (x ++ xs.flatten)) :=
        List.sublist_append_right c _
      have h2 := h1.append_left a.flatten
      simpa using h2

theorem mergeNearbySegments_flatten_sublist (g : GeoPrims)
    (segments : List (List MatchingPoint)) :
    List.Sublist (mergeNearbySegments g segments).flatten segments.flatten := by
  unfold mergeNearbySegments
  split
  · exact List.Sublist.refl _
  · split
    · simp
    · next s0 rest hlen1 =>
      refine (finalizeGroups_flatten_sublist _).trans ?_
      have := mergeNearby_foldl_flatten g rest [] s0
      simpa using this

theorem foldl_min_mem : ∀ (xs : List ℕ) (x : ℕ), xs.foldl min x ∈ x :: xs := by
  intro xs
  induction xs with
  | nil => intro x; simp
  | cons y ys ih =>
    intro x
    rw [List.foldl_cons]
    rcases List.mem_cons.mp (ih (min x y)) with h | h
    · rcases min_choice x y with hm | hm
      · rw [h, hm]
        exact List.mem_cons_self _ _
      · rw [h, hm]
        exact List.mem_cons_of_mem _ (List.mem_cons_self _ _)
    · exact List.mem_cons_of_mem _ (List.mem_cons_of_mem _ h)

theorem minIndexA_mem (s : List MatchingPoint) (h : s ≠ []) :
    ∃ p ∈ s, minIndexA s = p.indexA := by
  unfold minIndexA
  cases s with
  | nil => exact absurd rfl h
  | cons p ps =>
    simp only [List.map_cons]
    rcases List.mem_cons.mp
        (foldl_min_mem (ps.map (fun q => q.indexA)) p.indexA) with hm | hm
    · exact ⟨p, List.mem_cons_self _ _, hm⟩
    · obtain ⟨q, hq, hqe⟩ := List.mem_map.mp hm
      exact ⟨q, List.mem_cons_of_mem _ hq, hqe.symm⟩

theorem keys_nodup_of_pairwise_lt (c : List MatchingPoint)
    (hc : c.Pairwise (fun p q => p.indexA < q.indexA)) :
    (c.map (fun p => p.indexA)).Nodup :=
  List.Pairwise.map _ (fun _ _ h => Nat.ne_of_lt h) hc

theorem foldl_mapInsert_of_disjoint :
    ∀ (c acc : List MatchingPoint),
      (∀ p ∈ c, ∀ q ∈ acc, q.indexA ≠ p.indexA) →
      (c.map (fun p => p.indexA)).Nodup →
      c.foldl mapInsert acc = acc ++ c := by
  intro c
  induction c with
  | nil => intro acc h1 h2; simp
  | cons p c ih =>
    intro acc h1 h2
    rw [List.foldl_cons]
    have hany : ¬ (acc.any (fun q => q.indexA = p.indexA) = true) := by
      rw [List.any_eq_true]
      rintro ⟨q, hq, hqe⟩
      exact h1 p (List.mem_cons_self _ _) q hq (of_decide_eq_true hqe)
    have hins : mapInsert acc p = acc ++ [p] := by
      unfold mapInsert
      rw [if_neg hany]
    simp only [List.map_cons, List.nodup_cons] at h2
    have hdisj : ∀ r ∈ c, ∀ q ∈ acc ++ [p], q.indexA ≠ r.indexA := by
      intro r hr q hq
      rcases List.mem_append.mp hq with hq | hq
      · exact h1 r (List.mem_cons_of_mem _ hr) q hq
      · rw [List.mem_singleton.mp hq]
        intro hpr
        exact h2.1 (by rw [hpr]; exact List.mem_map.mpr ⟨r, hr, rfl⟩)
    rw [hins, ih (acc ++ [p]) hdisj h2.2]
    simp

theorem foldl_mapInsertIfAbsent_of_disjoint :
    ∀ (c acc : List MatchingPoint),
      (∀ p ∈ c, ∀ q ∈ acc, q.indexA ≠ p.indexA) →
      (c.map (fun p => p.indexA)).Nodup →
      c.foldl mapInsertIfAbsent acc = acc ++ c := by
  intro c
  induction c with
  | nil => intro acc h1 h2; simp
  | cons p c ih =>
    intro acc h1 h2
    rw [List.foldl_cons]
    have hany : ¬ (acc.any (fun q => q.indexA = p.indexA) = true) := by
      rw [List.any_eq_true]
      rintro ⟨q, hq, hqe⟩
      exact h1 p (List.mem_cons_self _ _) q hq (of_decide_eq_true hqe)
    have hins : mapInsertIfAbsent acc p = acc ++ [p] := by
      unfold mapInsertIfAbsent
      rw [if_neg hany]
    simp only [List.map_cons, List.nodup_cons] at h2
    have hdisj : ∀ r ∈ c, ∀ q ∈ acc ++ [p], q.indexA ≠ r.indexA := by
      intro r hr q hq
      rcases List.mem_append.mp hq with hq | hq
      · exact h1 r (List.mem_cons_of_mem _ hr) q hq
      · rw [List.mem_singleton.mp hq]
        intro hpr
        exact h2.1 (by rw [hpr]; exact List.mem_map.mpr ⟨r, hr, rfl⟩)
    rw [hins, ih (acc ++ [p]) hdisj h2.2]
    simp

/-- When the first segment's `indexA` values all precede the second's, the
key-union plus stable sort of `mergeSegmentPoints` is a plain concatenation. -/
theorem mergeSegmentPoints_eq_append (c x : List MatchingPoint)
    (hc : c.Pairwise (fun p q => p.indexA < q.indexA))
    (hx : x.Pairwise (fun p q => p.indexA < q.indexA))
    (hcx : ∀ p ∈ c, ∀ q ∈ x, p.indexA < q.indexA) :
    mergeSegmentPoints c x = c ++ x := by
  unfold mergeSegmentPoints
  have h1 : c.foldl mapInsert [] = c := by
    have := foldl_mapInsert_of_disjoint c [] (by simp) (keys_nodup_of_pairwise_lt c hc)
    simpa using this
  rw [h1]
  have h2 : x.foldl mapInsertIfAbsent c = c ++ x :=
    foldl_mapInsertIfAbsent_of_disjoint x c
      (fun p hp q hq => Nat.ne_of_lt (hcx q hq p hp))
      (keys_nodup_of_pairwise_lt x hx)
  rw [h2]
  apply List.mergeSort_of_sorted
  rw [List.pairwise_append]
  exact ⟨hc.imp (fun h => decide_eq_true (Nat.le_of_lt h)),
    hx.imp (fun h => decide_eq_true (Nat.le_of_lt h)),
    fun p hp q hq => decide_eq_true (Nat.le_of_lt (hcx p hp q hq))⟩

theorem mergeOverlap_foldl_ordered (g : GeoPrims) (skip : Bool) :
    ∀ (xs : List (List MatchingPoint)) (a : List (List MatchingPoint))
      (c : List MatchingPoint),
      List.Pairwise (fun p q => p.indexA < q.indexA)
        (a.flatten ++ c ++ xs.flatten) →
      List.Sublist
        ((xs.foldl (mergeOverlapStep g skip) (a, c)).1.flatten ++
          (xs.foldl (mergeOverlapStep g skip) (a, c)).2)
        (a.flatten ++ c ++ xs.flatten) := by
  intro xs
  induction xs with
  | nil =>
    intro a c _
    rw [List.foldl_nil]
    have heq2 : a.flatten ++ c ++ List.flatten [] = a.flatten ++ c := by simp
    rw [heq2]
  | cons x xs ih =>
    intro a c h
    rw [List.foldl_cons]
    have h2 := h
    rw [List.flatten_cons] at h2
    rcases mergeOverlapStep_shape g skip a c x with heq | ⟨-, heq⟩ | heq
    · obtain ⟨hL, hR, hcrossLR⟩ := List.pairwise_append.mp h2
      obtain ⟨-, hc, -⟩ := List.pairwise_append.mp hL
      obtain ⟨hx, -, -⟩ := List.pairwise_append.mp hR
      have hcx : ∀ p ∈ c, ∀ q ∈ x, p.indexA < q.indexA := fun p hp q hq =>
        hcrossLR p (List.mem_append_right _ hp) q (List.mem_append_left _ hq)
      rw [heq, mergeSegmentPoints_eq_append c x hc hx hcx]
      refine (ih a (c ++ x) ?_).trans ?_
      · have heq2 : a.flatten ++ (c ++ x) ++ xs.flatten =
            a.flatten ++ c ++ (x ++ xs.flatten) := by simp
        rw [heq2]
        exact h2
      · have heq2 : a.flatten ++ (c ++ x) ++ xs.flatten =
            a.flatten ++ c ++ (x :: xs).flatten := by simp
        rw [heq2]
    · rw [heq]
      refine (ih (a ++ [c]) x ?_).trans ?_
      · have heq2 : (a ++ [c]).flatten ++ x ++ xs.flatten =
            a.flatten ++ c ++ (x ++ xs.flatten) := by simp
        rw [heq2]
        exact h2
      · have heq2 : (a ++ [c]).flatten ++ x ++ xs.flatten =
            a.flatten ++ c ++ (x :: xs).flatten := by simp
        rw [heq2]
    · rw [heq]
      have hsub : List.Sublist (a.flatten ++ x ++ xs.flatten)
          (a.flatten ++ c ++ (x :: xs).flatten) := by
        have h1 : List.Sublist (x ++ xs.flatten) (c ++ (x ++ xs.flatten)) :=
          List.sublist_append_right c _
        have h3 := h1.append_left a.flatten
        simpa using h3
      exact (ih a x (List.Pairwise.sublist hsub h)).trans hsub

theorem mergeOverlappingSegments_flatten_sublist (g : GeoPrims)
    (segments : List (List MatchingPoint)) (algorithm : MatchingAlgorithm)
    (hjoin : List.Pairwise (fun p q => p.indexA < q.indexA) segments.flatten)
    (hne : ∀ s ∈ segments, s ≠ []) :
    List.Sublist (mergeOverlappingSegments g segments algorithm).flatten
      segments.flatten := by
  unfold mergeOverlappingSegments
  split
  · exact List.Sublist.refl _
  · have hcross := (List.pairwise_flatten.mp hjoin).2
    have hpair : List.Pairwise
        (fun s t => decide (minIndexA s ≤ minIndexA t) = true) segments := by
      refine hcross.imp_of_mem ?_
      intro s t hs ht hst
      obtain ⟨p, hp, hpe⟩ := minIndexA_mem s (hne s hs)
      obtain ⟨q, hq, hqe⟩ := minIndexA_mem t (hne t ht)
      exact decide_eq_true (by rw [hpe, hqe]; exact Nat.le_of_lt (hst p hp q hq))
    have hsorted := List.mergeSort_of_sorted hpair
    split
    · simp
    · next s0 rest heq =>
      rw [hsorted] at heq
      subst heq
      refine (finalizeGroups_flatten_sublist _).trans ?_
      have hfold := mergeOverlap_foldl_ordered g
        (decide (algorithm = MatchingAlgorithm.bidirectional)) rest [] s0
        (by simpa using hjoin)
      simpa using hfold

theorem natToDecAux_fuel_irrel : ∀ (f f' n : ℕ), n < f → n < f' →
    natToDecAux f n = natToDecAux f' n := by
  intro f
  induction f with
  | zero => intro f' n h; omega
  | succ f ih =>
    intro f' n h h'
    cases f' with
    | zero => omega
    | succ f'' =>
      simp only [natToDecAux]
      by_cases h10 : n < 10
      · rw [if_pos h10, if_pos h10]
      · rw [if_neg h10, if_neg h10]
        have hdiv : n / 10 < n := Nat.div_lt_self (by omega) (by omega)
        rw [ih f'' (n / 10) (by omega) (by omega)]

theorem natToDec_of_lt (n : ℕ) (h : n < 10) : natToDec n = [decDigit n] := by
  unfold natToDec
  simp only [natToDecAux]
  rw [if_pos h]

theorem natToDec_of_ge (n : ℕ) (h : 10 ≤ n) :
    natToDec n = natToDec (n / 10) ++ [decDigit (n % 10)] := by
  have hdiv : n / 10 < n := Nat.div_lt_self (by omega) (by omega)
  have hstep : natToDecAux (n + 1) n =
      natToDecAux n (n / 10) ++ [decDigit (n % 10)] := by
    simp only [natToDecAux]
    rw [if_neg (by omega)]
  show natToDecAux (n + 1) n = natToDecAux (n / 10 + 1) (n / 10) ++ [decDigit (n % 10)]
  rw [hstep, natToDecAux_fuel_irrel n (n / 10 + 1) (n / 10) (by omega) (by omega)]

theorem natToDec_ne_nil (n : ℕ) : natToDec n ≠ [] := by
  by_cases h : n < 10
  · rw [natToDec_of_lt n h]
    simp
  · rw [natToDec_of_ge n (by omega)]
    simp

theorem natToDec_two_le_length (n : ℕ) (h : 10 ≤ n) : 2 ≤ (natToDec n).length := by
  have h1 : 0 < (natToDec (n / 10)).length :=
    List.length_pos.mpr (natToDec_ne_nil _)
  rw [natToDec_of_ge n h, List.length_append, List.length_singleton]
  omega

theorem decDigit_inj_lt : ∀ d < 10, ∀ e < 10, decDigit d = decDigit e → d = e := by
  decide

theorem natToDec_inj : ∀ m n : ℕ, natToDec m = natToDec n → m = n := by
  intro m
  induction m using Nat.strong_induction_on with
  | _ m ih =>
    intro n h
    by_cases hm : m < 10 <;> by_cases hn : n < 10
    · rw [natToDec_of_lt m hm, natToDec_of_lt n hn] at h
      simp only [List.cons.injEq, and_true] at h
      exact decDigit_inj_lt m hm n hn h
    · rw [natToDec_of_lt m hm] at h
      have h2 := natToDec_two_le_length n (by omega)
      have h1 := congrArg List.length h
      simp at h1
      omega
    · rw [natToDec_of_lt n hn] at h
      have h2 := natToDec_two_le_length m (by omega)
      have h1 := congrArg List.length h
      simp at h1
      omega
    · rw [natToDec_of_ge m (by omega), natToDec_of_ge n (by omega)] at h
      have hlen : (natToDec (m / 10)).length = (natToDec (n / 10)).length := by
        have h1 := congrArg List.length h
        simp only [List.length_append, List.length_singleton] at h1
        omega
      obtain ⟨h1, h2⟩ := List.append_inj h hlen
      have hdiv := ih (m / 10) (Nat.div_lt_self (by omega) (by omega)) (n / 10) h1
      simp only [List.cons.injEq, and_true] at h2
      have hmod : m % 10 = n % 10 :=
        decDigit_inj_lt (m % 10) (Nat.mod_lt _ (by omega)) (n % 10)
          (Nat.mod_lt _ (by omega)) h2
      omega

theorem createSegment_id (g : GeoPrims) (sp : List MatchingPoint) (A B : GpxTrack) :
    (createSegment g sp A B).id =
      A.id ++ ['-'] ++ B.id ++ ['-'] ++ natToDec ((sp.headD default).indexA) := rfl

theorem createSegment_id_ne (g : GeoPrims) (A B : GpxTrack)
    (s t : List MatchingPoint)
    (hlt : (s.headD default).indexA < (t.headD default).indexA) :
    (createSegment g s A B).id ≠ (createSegment g t A B).id := by
  rw [createSegment_id, createSegment_id]
  intro heq
  simp only [List.append_assoc] at heq
  have h1 := List.append_cancel_left heq
  have h2 := List.append_cancel_left h1
  have h3 := List.append_cancel_left h2
  have h4 := List.append_cancel_left h3
  exact absurd (natToDec_inj _ _ h4) (Nat.ne_of_lt hlt)

theorem groupIntoSegments_ids_nodup (g : GeoPrims) (mps : List MatchingPoint)
    (A B : GpxTrack) (algorithm : MatchingAlgorithm)
    (hmps : mps.Pairwise (fun p q => p.indexA < q.indexA)) :
    ((groupIntoSegments g mps A B algorithm).map (fun s => s.id)).Nodup := by
  unfold groupIntoSegments
  by_cases hlen : mps.length < MIN_SEGMENT_POINTS
  · rw [if_pos hlen]
    simp
  · rw [if_neg hlen]
    apply List.Nodup.sublist ((List.filter_sublist _).map _)
    rw [List.map_map]
    have hRlen := buildRawSegments_lengths
      (decide (algorithm = MatchingAlgorithm.bidirectional)) mps
    have hNlen := mergeNearbySegments_lengths g _ hRlen
    have hFlen := mergeOverlappingSegments_lengths g _ algorithm hNlen
    have hRsub := buildRawSegments_flatten_sublist
      (decide (algorithm = MatchingAlgorithm.bidirectional)) mps
    have hNsub := mergeNearbySegments_flatten_sublist g
      (buildRawSegments (decide (algorithm = MatchingAlgorithm.bidirectional)) mps)
    have hNjoin : List.Pairwise (fun p q => p.indexA < q.indexA)
        (mergeNearbySegments g
          (buildRawSegments (decide (algorithm = MatchingAlgorithm.bidirectional))
            mps)).flatten :=
      List.Pairwise.sublist (hNsub.trans hRsub) hmps
    have hNne : ∀ s ∈ mergeNearbySegments g
        (buildRawSegments (decide (algorithm = MatchingAlgorithm.bidirectional)) mps),
        s ≠ [] := fun s hs => ne_nil_of_min_length (hNlen s hs)
    have hFsub := mergeOverlappingSegments_flatten_sublist g _ algorithm hNjoin hNne
    have hFjoin : List.Pairwise (fun p q => p.indexA < q.indexA)
        (mergeOverlappingSegments g
          (mergeNearbySegments g
            (buildRawSegments (decide (algorithm = MatchingAlgorithm.bidirectional))
              mps)) algorithm).flatten :=
      List.Pairwise.sublist hFsub hNjoin
    have hFne : ∀ s ∈ mergeOverlappingSegments g
        (mergeNearbySegments g
          (buildRawSegments (decide (algorithm = MatchingAlgorithm.bidirectional))
            mps)) algorithm, s ≠ [] := fun s hs => ne_nil_of_min_length (hFlen s hs)
    have hcross := (List.pairwise_flatten.mp hFjoin).2
    have hheads : List.Pairwise
        (fun s t : List MatchingPoint =>
          (s.headD default).indexA < (t.headD default).indexA)
        (mergeOverlappingSegments g
          (mergeNearbySegments g
            (buildRawSegments (decide (algorithm = MatchingAlgorithm.bidirectional))
              mps)) algorithm) := by
      refine hcross.imp_of_mem ?_
      intro s t hs ht hst
      exact hst _ (headD_mem_mp s (hFne s hs)) _ (headD_mem_mp t (hFne t ht))
    exact List.Pairwise.map _
      (fun s t hst => createSegment_id_ne g A B s t hst) hheads

/-- C10 (amended): within a single track pair the returned segment ids are
pairwise distinct — matching points arrive in strictly increasing `indexA`
order, every grouping stage preserves that order across groups, so the final
groups have strictly increasing first `indexA` values, and the decimal suffix
of each id is distinct.  (Across different track pairs ids can collide, see
the counterexample.) -/
theorem findMatchesBetweenTracks_ids_nodup (g : GeoPrims) (A B : GpxTrack)
    (deltaMeters : ℚ) (algorithm : MatchingAlgorithm) :
    ((findMatchesBetweenTracks g A B deltaMeters algorithm).map
      (fun s => s.id)).Nodup := by
  unfold findMatchesBetweenTracks
  by_cases hlen : A.elevation.length < MIN_SEGMENT_POINTS ∨
      B.elevation.length < MIN_SEGMENT_POINTS
  · rw [if_pos hlen]
    simp
  · rw [if_neg hlen]
    exact groupIntoSegments_ids_nodup g _ A B algorithm
      (matchCandidates_pairwise g _ _ _ _ _)

end GpxViewer
